import Mathlib

/-!
Verification development for the `cuenta` expense bot.

The Python source under `src/expense_bot` is embedded shallowly:

* `expense_bot/graph/state.py` — data model (`RetryJob`, `ConversationState`,
  `ExpenseDraft`, `AccountMatch`, `AccountCandidate`);
* `expense_bot/integrations/retry_queue.py` — `RetryQueueRepository`, modelled
  as pure transitions on an explicit table state (each `with self._conn:`
  block is one atomic SQLite transaction, so one Lean function application);
* `expense_bot/graph/nodes.py` and `graph/builder.py` — conversation nodes;
* `expense_bot/graph/posting.py` — journal-entry payload building and posting;
* `expense_bot/parsing/expense.py` — the text parser and the account ranker.

Conventions: Python `str` is `String`; Python `int` is `Int` (ids, attempt
counters); Python `Decimal`/`float` amounts and rapidfuzz scores are `ℚ`;
`datetime` is seconds plus microseconds; a Python function that can raise is
embedded with an explicit error result, and an in-place mutator returns the
post-state.  The rapidfuzz scoring functions (`fuzz.token_set_ratio`,
`fuzz.partial_ratio`) and Python's `re`/`json`/`sqlite3` are third-party
collaborators: the two fuzz scorers are parameters of the ranking embedding,
the three concrete regexes of `parsing/expense.py` are embedded directly as
leftmost-match scanners with Python's ordered-alternation and greedy
semantics, `json.dumps`/`json.loads` round-tripping on JSON-native values is
modelled by storing the JSON value itself, and SQLite rows are an explicit
association list keyed by the AUTOINCREMENT id.
-/

/-! ## Python string helpers

All helpers recurse structurally over the character list of the string, so
they compute by definitional reduction; they model CPython's behaviour on
the texts the program handles. -/

/-- `dropWhile` does not lengthen a list (termination helper). -/
theorem lengthDropWhileLe (p : Char → Bool) (l : List Char) :
    (l.dropWhile p).length ≤ l.length := by
  induction l with
  | nil => simp
  | cons c rest ih =>
    by_cases h : p c
    · simp [List.dropWhile, h]; omega
    · simp [List.dropWhile, h]

/-- Python `str.strip()` with no argument: drop leading and trailing
whitespace. -/
def pyStrip (s : String) : String :=
  let l := s.data.dropWhile Char.isWhitespace
  String.mk ((l.reverse.dropWhile Char.isWhitespace).reverse)

/-- Python `str.lower()` (the source only ever lowercases ASCII chat text). -/
def pyLower (s : String) : String :=
  String.mk (s.data.map Char.toLower)

/-- Python `str.upper()`. -/
def pyUpper (s : String) : String :=
  String.mk (s.data.map Char.toUpper)

/-- The maximal non-whitespace runs of a character list (fuel-indexed
structural recursion; the fuel, always at least the list length at entry,
only bounds the recursion depth). -/
def wsRunsGo : Nat → List Char → List String
  | 0, _ => []
  | fuel + 1, u =>
    match u with
    | [] => []
    | c :: rest =>
      if c.isWhitespace then wsRunsGo fuel rest
      else
        String.mk (c :: rest.takeWhile (fun d => !d.isWhitespace)) ::
          wsRunsGo fuel (rest.dropWhile (fun d => !d.isWhitespace))

/-- The maximal non-whitespace runs of a character list, in order. -/
def wsRuns (u : List Char) : List String :=
  wsRunsGo u.length u

/-- Python `str.split()` with no argument: the non-whitespace runs. -/
def pySplitWs (s : String) : List String :=
  wsRuns s.data

/-- `" ".join(text.split())` — the whitespace normalisation applied to the
working text in `parse_expense_text`. -/
def normalizeWs (s : String) : String :=
  String.intercalate " " (pySplitWs s)

/-! ## Errors

The Python exceptions that the embedded code can raise.  `valueError` covers
both explicit `raise ValueError` sites and the `ValueError` raised by
`RetryJob.__post_init__`; `typeError` is the `TypeError` raised by comparing
`int` with `None`; `retryQueueError` is `RetryQueueError` from
`integrations/retry_queue.py`. -/
inductive PyErr where
  | valueError
  | typeError
  | retryQueueError
  deriving DecidableEq, Repr

/-! ## Datetimes

`datetime` values are modelled as seconds plus a microsecond part.  All
datetimes written by the repository go through `_serialize_datetime`, which
zeroes the microsecond field; rows therefore always hold whole-second values
and the TEXT comparison `next_run_at <= ?` used by SQLite coincides with the
chronological (lexicographic) order below, because every stored string uses
one uniform ISO format. -/
structure DateTime where
  sec : Int
  usec : Nat
  deriving DecidableEq, Repr

/-- Chronological order on datetimes (lexicographic on seconds then
microseconds, matching ISO-string comparison for a uniform format). -/
def DateTime.le (a b : DateTime) : Bool :=
  a.sec < b.sec || (a.sec == b.sec && a.usec ≤ b.usec)

/-- Strict chronological order. -/
def DateTime.lt (a b : DateTime) : Bool :=
  a.sec < b.sec || (a.sec == b.sec && a.usec < b.usec)

/-- `RetryQueueRepository._serialize_datetime`:
`value.replace(microsecond=0).isoformat()` — the stored text drops the
sub-second part. -/
def serializeDatetime (d : DateTime) : DateTime :=
  { sec := d.sec, usec := 0 }

/-- Shift a datetime by whole seconds (`timedelta` addition). -/
def DateTime.addSec (d : DateTime) (n : Int) : DateTime :=
  { sec := d.sec + n, usec := d.usec }

/-! ## JSON values

Payloads are opaque JSON documents.  The claims about the queue restrict
payloads to JSON-native values, on which `json.dumps`/`json.loads` is a
round trip; the model therefore stores the JSON value itself as the
serialized cell.  Payload entries of type `datetime`/`date`/`Decimal`
(handled by `_json_default`, not reparsed by `json.loads`) are outside this
model. -/
inductive Json where
  | null
  | bool (b : Bool)
  | num (q : ℚ)
  | str (s : String)
  | arr (elems : List Json)
  | obj (fields : List (String × Json))

/-! ## RetryJob (`graph/state.py`) -/

/-- `MAX_RETRY_ATTEMPTS = 5`. -/
def MAX_RETRY_ATTEMPTS : Int := 5

/-- `RetryJob` dataclass fields (`graph/state.py`). -/
structure RetryJob where
  thread_id : String
  payload : Json
  next_run_at : DateTime
  attempts : Int := 0
  id : Option Int := none
  error : Option String := none

/-- `RetryJob.__post_init__`: constructing a job fails with `ValueError`
when `attempts < 0` or `attempts > MAX_RETRY_ATTEMPTS`. -/
def mkRetryJob (thread_id : String) (payload : Json) (next_run_at : DateTime)
    (attempts : Int := 0) (id : Option Int := none)
    (error : Option String := none) : Except PyErr RetryJob :=
  if attempts < 0 then .error .valueError
  else if attempts > MAX_RETRY_ATTEMPTS then .error .valueError
  else .ok { thread_id, payload, next_run_at, attempts, id, error }

/-- `RetryJob.is_exhausted`: `attempts >= MAX_RETRY_ATTEMPTS`. -/
def RetryJob.isExhausted (j : RetryJob) : Bool :=
  j.attempts ≥ MAX_RETRY_ATTEMPTS

/-- The structural constraint `RetryJob.__post_init__` enforces. -/
def RetryJob.valid (j : RetryJob) : Prop :=
  0 ≤ j.attempts ∧ j.attempts ≤ MAX_RETRY_ATTEMPTS

instance (j : RetryJob) : Decidable j.valid := by
  unfold RetryJob.valid; infer_instance

/-! ## RetryQueueRepository (`integrations/retry_queue.py`)

The SQLite table `retry_jobs` is an association list from the AUTOINCREMENT
id to the row contents; `nextId` is the next id SQLite would assign (ids are
never reused).  Every public method runs inside one `with self._conn:`
transaction, so each is a single atomic transition. -/

/-- One `retry_jobs` row. -/
structure Row where
  thread_id : String
  payload : Json
  attempts : Int
  next_run_at : DateTime
  error : Option String
  locked_by : Option String
  locked_at : Option DateTime

/-- The repository state: table rows plus the AUTOINCREMENT counter. -/
structure RepoState where
  rows : List (Int × Row)
  nextId : Int

/-- A fresh database. -/
def emptyRepo : RepoState := { rows := [], nextId := 1 }

/-- `SELECT * FROM retry_jobs WHERE id = ?` (first match; ids are unique in
any state produced by the operations). -/
def rowsLookup (rows : List (Int × Row)) (jobId : Int) : Option Row :=
  match rows with
  | [] => none
  | p :: rest => if p.1 = jobId then some p.2 else rowsLookup rest jobId

/-- `RetryQueueRepository._row_to_job`: materialise a row as a `RetryJob`,
which re-runs `RetryJob.__post_init__` and hence raises `ValueError` when
the stored `attempts` lies outside `[0, MAX_RETRY_ATTEMPTS]`. -/
def rowToJob (jobId : Int) (r : Row) : Except PyErr RetryJob :=
  mkRetryJob r.thread_id r.payload r.next_run_at r.attempts (some jobId) r.error

/-- The row update performed by the claiming UPDATE of `acquire_due_job`. -/
def lockRow (lockId : String) (t : DateTime) (r : Row) : Row :=
  { r with locked_by := some lockId, locked_at := some t }

/-- The row update performed by `mark_failure`. -/
def failRow (error : String) (nextRun : DateTime) (r : Row) : Row :=
  { r with
      attempts := r.attempts + 1
      next_run_at := nextRun
      error := some error
      locked_by := none
      locked_at := none }

/-- The row update performed by `reset_lock`. -/
def unlockRow (r : Row) : Row :=
  { r with locked_by := none, locked_at := none }

namespace RetryQueue

/-- `enqueue`: INSERT the job's fields (serialising `next_run_at`), return
the job with the assigned id.  Only jobs that passed `RetryJob.__post_init__`
can reach this call in Python, hence the caller-side `valid` obligation is
carried by the trace semantics below. -/
def enqueue (s : RepoState) (job : RetryJob) : RetryJob × RepoState :=
  let row : Row :=
    { thread_id := job.thread_id
      payload := job.payload
      attempts := job.attempts
      next_run_at := serializeDatetime job.next_run_at
      error := job.error
      locked_by := none
      locked_at := none }
  ({ job with id := some s.nextId },
   { rows := s.rows ++ [(s.nextId, row)], nextId := s.nextId + 1 })

/-- `get`: return a job by id if it exists (materialisation may raise). -/
def get (s : RepoState) (jobId : Int) : Except PyErr (Option RetryJob) :=
  match rowsLookup s.rows jobId with
  | none => .ok none
  | some r => (rowToJob jobId r).map some

/-- One fold step of the due-row selection: keep the eligible pair minimal
in the (next_run_at, id) lexicographic order. -/
def seleStep (current : DateTime) (best : Option (Int × Row)) (p : Int × Row) :
    Option (Int × Row) :=
  if p.2.locked_by == none && DateTime.le p.2.next_run_at current then
    match best with
    | none => some p
    | some b =>
      if DateTime.lt p.2.next_run_at b.2.next_run_at
          || (p.2.next_run_at == b.2.next_run_at && p.1 < b.1) then
        some p
      else some b
  else best

/-- The `SELECT id ... WHERE locked_by IS NULL AND next_run_at <= ?
ORDER BY next_run_at ASC, id ASC LIMIT 1` of `acquire_due_job`. -/
def selectDue (rows : List (Int × Row)) (current : DateTime) :
    Option (Int × Row) :=
  rows.foldl (seleStep current) none

/-- `acquire_due_job`: pick the earliest due unlocked row, then claim it
with the conditional `UPDATE ... WHERE id = ? AND locked_by IS NULL`; the
claim succeeds only if the row is still unlocked, and the locked row is then
materialised.  Returns the post-state together with the result. -/
def acquireDueJob (s : RepoState) (lockId : String) (now : DateTime) :
    RepoState × Except PyErr (Option RetryJob) :=
  if lockId = "" then (s, .error .valueError)
  else
    let current := serializeDatetime now
    match selectDue s.rows current with
    | none => (s, .ok none)
    | some sel =>
      let jobId := sel.1
      let hit := s.rows.any (fun p => p.1 == jobId && p.2.locked_by == none)
      if hit then
        let rows₁ := s.rows.map (fun p =>
          if p.1 == jobId && p.2.locked_by == none then
            (p.1, lockRow lockId current p.2)
          else p)
        let s₁ : RepoState := { rows := rows₁, nextId := s.nextId }
        (s₁,
         match rowsLookup s₁.rows jobId with
         | none => .error .valueError
         | some r => (rowToJob jobId r).map some)
      else (s, .ok none)

/-- `mark_failure`: conditional `UPDATE ... SET attempts = attempts + 1,
next_run_at = ?, error = ?, locked_by = NULL, locked_at = NULL WHERE id = ?
AND locked_by = ?`; zero rows updated raises `RetryQueueError`, otherwise
the updated row is re-read and materialised (committing first: the UPDATE
stands even if materialisation then raises `ValueError`). -/
def markFailure (s : RepoState) (jobId : Int) (lockId : String)
    (error : String) (next_run_at : DateTime) :
    RepoState × Except PyErr RetryJob :=
  if lockId = "" then (s, .error .valueError)
  else
    let nextRun := serializeDatetime next_run_at
    let cond := fun (p : Int × Row) => p.1 == jobId && p.2.locked_by == some lockId
    if s.rows.any cond then
      let rows₁ := s.rows.map (fun p =>
        if cond p then (p.1, failRow error nextRun p.2) else p)
      let s₁ : RepoState := { rows := rows₁, nextId := s.nextId }
      (s₁,
       match rowsLookup s₁.rows jobId with
       | none => .error .valueError
       | some r => rowToJob jobId r)
    else (s, .error .retryQueueError)

/-- `mark_success`: `DELETE FROM retry_jobs WHERE id = ? AND locked_by = ?`;
zero rows deleted raises `RetryQueueError`. -/
def markSuccess (s : RepoState) (jobId : Int) (lockId : String) :
    RepoState × Except PyErr Unit :=
  if lockId = "" then (s, .error .valueError)
  else
    let cond := fun (p : Int × Row) => p.1 == jobId && p.2.locked_by == some lockId
    if s.rows.any cond then
      ({ rows := s.rows.filter (fun p => !cond p), nextId := s.nextId }, .ok ())
    else (s, .error .retryQueueError)

/-- `reset_lock`: unconditionally clear the lock fields of the row. -/
def resetLock (s : RepoState) (jobId : Int) : RepoState :=
  { rows := s.rows.map (fun p =>
      if p.1 == jobId then (p.1, unlockRow p.2) else p)
    nextId := s.nextId }

/-- `delete`: remove the row regardless of lock ownership. -/
def deleteJob (s : RepoState) (jobId : Int) : RepoState :=
  { rows := s.rows.filter (fun p => !(p.1 == jobId)), nextId := s.nextId }

/-! ### Trace semantics

Concurrency in the source is a pool of workers interleaving calls on the
shared SQLite table; each call is one transaction, so an interleaving is a
sequence of atomic operations. -/

/-- One repository call by some worker. -/
inductive Op where
  | enqueue (job : RetryJob)
  | acquire (w : String) (now : DateTime)
  | markFailure (jobId : Int) (w : String) (error : String) (t : DateTime)
  | markSuccess (jobId : Int) (w : String)
  | resetLock (jobId : Int)
  | deleteJob (jobId : Int)
  | getJob (jobId : Int)

/-- Effect of an operation on the table.  `enqueue` is guarded by
`RetryJob.valid` because Python callers can only hold jobs that passed
`RetryJob.__post_init__`. -/
def step (s : RepoState) (op : Op) : RepoState :=
  match op with
  | .enqueue job => if job.valid then (enqueue s job).2 else s
  | .acquire w now => (acquireDueJob s w now).1
  | .markFailure jobId w e t => (markFailure s jobId w e t).1
  | .markSuccess jobId w => (markSuccess s jobId w).1
  | .resetLock jobId => resetLock s jobId
  | .deleteJob jobId => deleteJob s jobId
  | .getJob _ => s

/-- Run a sequence of operations. -/
def runOps (s : RepoState) (ops : List Op) : RepoState :=
  ops.foldl step s

/-- States reachable from a fresh database. -/
def Reachable (s : RepoState) : Prop :=
  ∃ ops : List Op, s = runOps emptyRepo ops

/-- Operations that release (or remove) the lock/row of a given job id, per
the claim: `mark_failure`, `mark_success`, `reset_lock` — together with the
administrative `delete`, which removes the row outright. -/
def releasesLock (op : Op) (jobId : Int) : Prop :=
  match op with
  | .markFailure j _ _ _ => j = jobId
  | .markSuccess j _ => j = jobId
  | .resetLock j => j = jobId
  | .deleteJob j => j = jobId
  | _ => False

instance (op : Op) (jobId : Int) : Decidable (releasesLock op jobId) := by
  unfold releasesLock; cases op <;> infer_instance

end RetryQueue

/-! ## Conversation data model (`graph/state.py`) -/

/-- `AttachmentRef`. -/
structure AttachmentRef where
  file_url : String
  caption : Option String := none

/-- `AccountMatch` (confidence validation is `0 ≤ c ≤ 1`, checked at the
construction sites relevant to the claims). -/
structure AccountMatch where
  account_code : String
  display_name : String
  confidence : ℚ

/-- `AccountCandidate`. -/
structure AccountCandidate where
  account_name : String
  account_code : String
  confidence : ℚ
  reason : String := ""

/-- `JournalEntryResult` (the posting date is kept as its ISO text). -/
structure JournalEntryResult where
  journal_entry_id : String
  posting_date : String
  voucher_no : String
  link : Option String := none

/-- `ExpenseDraft` fields (`__post_init__` validation is stated separately
where a claim needs it). -/
structure ExpenseDraft where
  amount : ℚ
  currency : String
  debit_account : AccountMatch
  credit_account : AccountMatch
  posting_date : String
  narration : String
  attachments : List AttachmentRef := []
  source_message_id : Option String := none

/-- Confirmation status literal. -/
inductive ConfStatus where
  | pending
  | approved
  | rejected
  deriving DecidableEq, Repr

/-- A chat message in the rolling history (`langchain` `HumanMessage` with
the metadata the builder attaches). -/
structure ChatMessage where
  content : String
  telegram_message_id : Option String := none
  telegram_user_id : Option Int := none

/-- `MAX_RECENT_MESSAGES = 6`. -/
def MAX_RECENT_MESSAGES : Nat := 6

/-- `ConversationState` (`graph/state.py`). -/
structure ConversationState where
  thread_id : String
  messages : List ChatMessage := []
  conversation_summary : Option String := none
  expense_draft : Option ExpenseDraft := none
  clarifications_needed : List String := []
  account_candidates : List AccountCandidate := []
  confirmation_status : ConfStatus := .pending
  erpnext_submission : Option JournalEntryResult := none
  error_log : List String := []
  pending_message : Option String := none
  pending_message_id : Option String := none
  pending_user_id : Option Int := none

/-- `ConversationState.append_message`: append and keep the last
`MAX_RECENT_MESSAGES` entries. -/
def ConversationState.appendMessage (s : ConversationState) (m : ChatMessage) :
    ConversationState :=
  let ms := s.messages ++ [m]
  { s with messages :=
      if ms.length > MAX_RECENT_MESSAGES then ms.drop (ms.length - MAX_RECENT_MESSAGES)
      else ms }

/-- `ConversationState.record_error`: append when the message is non-empty. -/
def ConversationState.recordError (s : ConversationState) (msg : String) :
    ConversationState :=
  if msg ≠ "" then { s with error_log := s.error_log ++ [msg] } else s

/-! ## Confirmation node (`graph/nodes.py`) -/

/-- Result literal of `apply_confirmation_decision`. -/
inductive Decision where
  | approved
  | rejected
  | edit
  | invalid
  deriving DecidableEq, Repr

/-- `CONFIRM_COMMANDS`. -/
def CONFIRM_COMMANDS : List String :=
  ["confirm", "confirmed", "approve", "approved", "yes", "y"]

/-- `CANCEL_COMMANDS`. -/
def CANCEL_COMMANDS : List String :=
  ["cancel", "cancelled", "reject", "rejected", "stop", "no", "n"]

/-- `EDIT_COMMANDS`. -/
def EDIT_COMMANDS : List String :=
  ["edit", "change", "update", "revise"]

/-- A single-quote character, used to reproduce the diagnostic f-string. -/
def sqc : String := String.mk [Char.ofNat 39]

/-- The diagnostic recorded for an unrecognised confirmation reply. -/
def invalidCommandMsg (userInput : String) : String :=
  sqc ++ userInput ++ sqc ++ " is not a valid confirmation command. " ++
    "Reply with confirm, edit, or cancel."

/-- `apply_confirmation_decision` (`graph/nodes.py`): normalise the reply,
map it through the command vocabulary, and update the state in place. -/
def applyConfirmationDecision (s : ConversationState) (userInput : String) :
    ConversationState × Decision :=
  let normalized := pyLower (pyStrip userInput)
  if normalized = "" then
    (s.recordError "Confirmation input is required.", .invalid)
  else if normalized ∈ CONFIRM_COMMANDS then
    match s.expense_draft with
    | none => (s.recordError "There is no expense draft to approve.", .invalid)
    | some _ => ({ s with confirmation_status := .approved }, .approved)
  else if normalized ∈ CANCEL_COMMANDS then
    ({ s with confirmation_status := .rejected }, .rejected)
  else if normalized ∈ EDIT_COMMANDS then
    ({ s with confirmation_status := .pending }, .edit)
  else
    ({ s.recordError (invalidCommandMsg userInput) with
        confirmation_status := .pending }, .invalid)

/-- `cancel_expense_attempt` (`graph/nodes.py`). -/
def cancelExpenseAttempt (s : ConversationState) (reason : Option String) :
    ConversationState :=
  let s₁ := { s with
      expense_draft := none
      account_candidates := []
      clarifications_needed := []
      confirmation_status := .rejected
      erpnext_submission := none }
  match reason with
  | some r => if r ≠ "" then s₁.recordError r else s₁
  | none => s₁

/-! ## Graph builder nodes (`graph/builder.py`) -/

/-- Errors the entry node can raise: `ValueError` for a missing
`pending_message`, `PermissionError` for an unauthorized user — a distinct
error type, so callers can render a fixed denial message. -/
inductive EntryErr where
  | valueError
  | permissionError
  deriving DecidableEq, Repr

/-- `_append_user_message`: wrap the text in a message carrying the Telegram
metadata (the message id only when non-empty — Python truthiness). -/
def appendUserMessage (s : ConversationState) (messageText : String)
    (messageId : Option String) (userId : Option Int) : ConversationState :=
  s.appendMessage
    { content := messageText
      telegram_message_id :=
        match messageId with
        | some mid => if mid ≠ "" then some mid else none
        | none => none
      telegram_user_id := userId }

/-- The node produced by `_create_entry_node`: check the message, check the
allow-list, then append the message to the rolling history.  The result
pairs the post-state (the state as mutated up to the point of a raise —
no mutation precedes either raise in the source) with the raised error, if
any. -/
def entryNode (allowedUsers : List Int) (s : ConversationState) :
    ConversationState × Option EntryErr :=
  let messageText := pyStrip (s.pending_message.getD "")
  if messageText = "" then (s, some .valueError)
  else if (!allowedUsers.isEmpty) &&
      (match s.pending_user_id with
       | none => true
       | some uid => !(allowedUsers.contains uid)) then
    (s, some .permissionError)
  else
    (appendUserMessage s messageText s.pending_message_id s.pending_user_id, none)

/-- `_handle_confirmation` (`graph/builder.py`): read the pending reply,
apply the decision, clear the per-turn inputs, and on rejection or edit run
the full attempt reset (edit then restores `pending`). -/
def handleConfirmation (s : ConversationState) : ConversationState :=
  let userInput := pyStrip (s.pending_message.getD "")
  if userInput = "" then s.recordError "Confirmation input is required."
  else
    let (s₁, decision) := applyConfirmationDecision s userInput
    let s₂ := { s₁ with pending_message := none, pending_message_id := none }
    match decision with
    | .rejected => cancelExpenseAttempt s₂ (some "User cancelled the expense.")
    | .edit =>
      { cancelExpenseAttempt s₂ (some "User requested edits.") with
          confirmation_status := .pending }
    | _ => s₂

/-! ## Posting (`graph/posting.py`) -/

/-- Errors out of `post_confirmed_expense`: its own precondition failure
(`ExpensePostingError`) or a bubbled-up ledger failure
(`ERPNextClientError`, carrying the client's message). -/
inductive PostErr where
  | postingError (msg : String)
  | clientError (msg : String)

/-- `_build_journal_entry_payload`: the two-line balanced journal entry,
with optional extra fields merged by `dict.update` (append-or-override by
key, later keys overriding earlier ones). -/
def dictUpdate (base extra : List (String × Json)) : List (String × Json) :=
  extra.foldl
    (fun acc kv =>
      if acc.any (fun p => p.1 == kv.1) then
        acc.map (fun p => if p.1 == kv.1 then kv else p)
      else acc ++ [kv])
    base

/-- `_build_journal_entry_payload` (`graph/posting.py`). -/
def buildJournalEntryPayload (draft : ExpenseDraft)
    (extraPayload : Option (List (String × Json)) := none) :
    List (String × Json) :=
  let amountValue := draft.amount
  let payload : List (String × Json) :=
    [("posting_date", .str draft.posting_date),
     ("user_remark", .str draft.narration),
     ("accounts", .arr
       [.obj [("account", .str draft.debit_account.account_code),
              ("debit_in_account_currency", .num amountValue),
              ("credit_in_account_currency", .num 0)],
        .obj [("account", .str draft.credit_account.account_code),
              ("debit_in_account_currency", .num 0),
              ("credit_in_account_currency", .num amountValue)]])]
  match extraPayload with
  | some extra => if !extra.isEmpty then dictUpdate payload extra else payload
  | none => payload

/-- The ERPNext client is an external collaborator: a function from the
journal-entry payload to either a result or a failure message. -/
def LedgerClient : Type :=
  List (String × Json) → Except String JournalEntryResult

/-- `post_confirmed_expense` (`graph/posting.py`): precondition checks, then
submit; on success store the result on the state. -/
def postConfirmedExpense (erpClient : LedgerClient) (s : ConversationState)
    (extraPayload : Option (List (String × Json)) := none) :
    Except PostErr (ConversationState × JournalEntryResult) :=
  match s.expense_draft with
  | none => .error (.postingError "ConversationState is missing an expense draft.")
  | some draft =>
    if s.confirmation_status ≠ .approved then
      .error (.postingError
        "Expense cannot be posted before the user approves the summary.")
    else
      match erpClient (buildJournalEntryPayload draft extraPayload) with
      | .error msg => .error (.clientError msg)
      | .ok result => .ok ({ s with erpnext_submission := some result }, result)

/-- Outcome of a coordinated posting attempt. -/
inductive PostOutcome where
  | posted (result : JournalEntryResult)
  | queued (job : RetryJob)
  | preconditionFailed (msg : String)

/-- Modelled from the spec: the PostingCoordinator's failure branch is code
of this repository that is not under `src/` — only `post_confirmed_expense`,
the `RetryQueueRepository`, the `RETRY_DB` configuration entry and the BDD
resilience tests declare or simulate it.  Per §4.5 of the spec, `post(state,
ledger_client)` requires an approved draft, submits the two-line payload,
and "on failure (ledger unavailable), hands a serialized payload to
RetryQueueRepository.enqueue with `next_run_at = now + 1 minute` as the
first backoff step", with a fresh job (attempts start at 0). -/
def postWithRetry (erpClient : LedgerClient) (s : ConversationState)
    (repo : RepoState) (now : DateTime) :
    ConversationState × RepoState × PostOutcome :=
  match postConfirmedExpense erpClient s with
  | .ok (s₁, result) => (s₁, repo, .posted result)
  | .error (.postingError msg) => (s, repo, .preconditionFailed msg)
  | .error (.clientError _) =>
    match s.expense_draft with
    | none => (s, repo, .preconditionFailed "unreachable: draft checked above")
    | some draft =>
      let job : RetryJob :=
        { thread_id := s.thread_id
          payload := .obj (buildJournalEntryPayload draft)
          next_run_at := now.addSec 60
          attempts := 0 }
      let (job₁, repo₁) := RetryQueue.enqueue repo job
      (s, repo₁, .queued job₁)

/-! ## Expense text parsing (`parsing/expense.py`)

`parse_expense_text` lowercases and whitespace-normalises the message and
then runs three fixed regular expressions over it.  Each regex is embedded
as a leftmost-match scanner with Python's ordered alternation and greedy
quantifiers; since everything after the first mandatory piece of each
pattern is optional, greedy matching needs no backtracking and the scanners
below are the exact match semantics of the source patterns. -/

/-- ASCII digit (`\d` on the lowercased working text). -/
def isDigitCh (c : Char) : Bool := c.isDigit

/-- Python `\w` (ASCII range; the embedded texts are ASCII). -/
def isWordCh (c : Char) : Bool := c.isAlphanum || c = '_'

/-- `[a-z0-9]` under `re.IGNORECASE`. -/
def isHintStartCh (c : Char) : Bool :=
  isDigitCh c || ('a' ≤ c.toLower && c.toLower ≤ 'z')

/-- `[a-z0-9\s:/&-]` under `re.IGNORECASE`. -/
def isHintBodyCh (c : Char) : Bool :=
  isHintStartCh c || c.isWhitespace || c = ':' || c = '/' || c = '&' || c = '-'

/-- Length of the run of leading characters satisfying `pred`. -/
def countLeading (pred : Char → Bool) : List Char → Nat
  | [] => 0
  | c :: rest => if pred c then countLeading pred rest + 1 else 0

/-- `(?:,\d{3})*`, greedy: characters consumed by the comma groups
(fuel-indexed structural recursion, fuel ≥ list length at entry). -/
def commaGroupsLenGo : Nat → List Char → Nat
  | 0, _ => 0
  | fuel + 1, u =>
    match u with
    | ',' :: rest =>
      if 3 ≤ countLeading isDigitCh rest then
        4 + commaGroupsLenGo fuel (rest.drop 3)
      else 0
    | _ => 0

/-- `(?:,\d{3})*`, greedy: characters consumed by the comma groups. -/
def commaGroupsLen (u : List Char) : Nat :=
  commaGroupsLenGo u.length u

/-- `(?:\.\d+)?`, greedy. -/
def fracLen (u : List Char) : Nat :=
  match u with
  | '.' :: rest =>
    let d := countLeading isDigitCh rest
    if 1 ≤ d then 1 + d else 0
  | _ => 0

/-- The numeric amount token
`\d{1,3}(?:,\d{3})*(?:\.\d+)?|\d+(?:\.\d+)?` at the head of `u`.  The
engine tries the first alternative first and the rest of `_AMOUNT_PATTERN`
is all-optional, so the second alternative (which needs a digit exactly
where the first needs one) is never taken. -/
def amountTokenLen (u : List Char) : Option Nat :=
  let d := min 3 (countLeading isDigitCh u)
  if d = 0 then none
  else
    let rest := u.drop d
    let g := commaGroupsLen rest
    let f := fracLen (rest.drop g)
    some (d + g + f)

/-- Currency alternatives before the amount, in pattern order. -/
def prefixCurrencyToks : List String :=
  ["$", "€", "£", "usd", "eur", "gbp", "cad", "aud", "mxn", "cop", "clp", "pen",
   "ars", "brl"]

/-- Currency alternatives after the amount, in pattern order. -/
def suffixCurrencyToks : List String :=
  ["usd", "eur", "gbp", "cad", "aud", "mxn", "cop", "clp", "pen", "ars", "brl"]

/-- First alternative (in pattern order) matching at the head of `u`. -/
def findTok (toks : List String) (u : List Char) : Option String :=
  toks.find? (fun t => t.data.isPrefixOf u)

/-- A successful `_AMOUNT_PATTERN` match. -/
structure AmountMatch where
  numStr : String
  prefixCur : Option String
  suffixCur : Option String
  span : Nat × Nat
  deriving DecidableEq, Repr

/-- `\s* amount \s* (?P<suffix_currency>...)?` at suffix `u` (absolute
position `p`), with match start `start` and optional prefix group `pre`.
When no suffix code matches, the optional group matches empty *after* the
greedy `\s*`, so the span still covers that whitespace. -/
def amountCoreAt (u : List Char) (p start : Nat) (pre : Option String) :
    Option AmountMatch :=
  let w := countLeading Char.isWhitespace u
  let u₁ := u.drop w
  match amountTokenLen u₁ with
  | none => none
  | some len =>
    let numStr := String.mk (u₁.take len)
    let u₂ := u₁.drop len
    let w₂ := countLeading Char.isWhitespace u₂
    let u₃ := u₂.drop w₂
    match findTok suffixCurrencyToks u₃ with
    | some tok =>
      some ⟨numStr, pre, some tok, (start, p + w + len + w₂ + tok.length)⟩
    | none => some ⟨numStr, pre, none, (start, p + w + len + w₂)⟩

/-- `_AMOUNT_PATTERN` at one position: the unique prefix-currency
alternative matching here is tried first; if its continuation fails the
optional group falls back to empty. -/
def tryAmountAt (u : List Char) (p : Nat) : Option AmountMatch :=
  match findTok prefixCurrencyToks u with
  | some tok =>
    match amountCoreAt (u.drop tok.length) (p + tok.length) p (some tok) with
    | some m => some m
    | none => amountCoreAt u p p none
  | none => amountCoreAt u p p none

/-- `re.search` for `_AMOUNT_PATTERN`: leftmost position that matches
(fuel-indexed; the entry fuel `u.length` exactly covers every position). -/
def amountSearchGo : Nat → List Char → Nat → Option AmountMatch
  | 0, u, p => tryAmountAt u p
  | fuel + 1, u, p =>
    match tryAmountAt u p with
    | some m => some m
    | none =>
      match u with
      | [] => none
      | _ :: rest => amountSearchGo fuel rest (p + 1)

/-- `_CURRENCY_SYMBOLS`. -/
def CURRENCY_SYMBOLS : List (String × String) :=
  [("$", "USD"), ("€", "EUR"), ("£", "GBP")]

/-- `_normalize_currency`. -/
def normalizeCurrency (token : Option String) (fallback : Option String) :
    Option String :=
  match token with
  | none => fallback
  | some t =>
    if t = "" then fallback
    else
      let cleaned := pyUpper (pyStrip t)
      some (((CURRENCY_SYMBOLS.find? (fun q => q.1 == cleaned)).map (·.2)).getD
        cleaned)

/-- Value of a string of ASCII digits. -/
def digitsToNat (cs : List Char) : Nat :=
  cs.foldl (fun a c => a * 10 + (c.toNat - 48)) 0

/-- `Decimal(raw_amount)` on the comma-free amount token (whose shape —
digits with at most one interior dot — makes the `InvalidOperation` branch
of the source unreachable). -/
def decimalOfNumStr (s : String) : ℚ :=
  let ip := s.data.takeWhile (· ≠ '.')
  let rest := s.data.dropWhile (· ≠ '.')
  match rest with
  | [] => (digitsToNat ip : ℚ)
  | _ :: fp =>
    (digitsToNat ip : ℚ) + (digitsToNat fp : ℚ) / (10 : ℚ) ^ fp.length

/-- `_extract_amount_and_currency`. -/
def extractAmountAndCurrency (text : String) (defaultCurrency : Option String) :
    Option ℚ × Option String × Option (Nat × Nat) :=
  match amountSearchGo text.data.length text.data 0 with
  | none => (none, defaultCurrency, none)
  | some m =>
    let raw := String.mk (m.numStr.data.filter (· ≠ ','))
    let amount := decimalOfNumStr raw
    let currencyToken :=
      match m.prefixCur with
      | some t => some t
      | none => m.suffixCur
    (some amount, normalizeCurrency currencyToken defaultCurrency, some m.span)

/-- `(?:kw₁|kw₂|…)\s+(?P<account>[a-z0-9][a-z0-9\s:/&-]*)` at one position:
ordered alternation over the keywords, `\s+` then the greedy group. -/
def tryHintAt (kws : List String) (u : List Char) (p : Nat) :
    Option (String × Nat × Nat) :=
  match kws with
  | [] => none
  | kw :: restKws =>
    let attempt : Option (String × Nat × Nat) :=
      if kw.data.isPrefixOf u then
        let u₁ := u.drop kw.length
        let w := countLeading Char.isWhitespace u₁
        if 1 ≤ w then
          match u₁.drop w with
          | [] => none
          | c :: tail =>
            if isHintStartCh c then
              let bodyLen := 1 + countLeading isHintBodyCh tail
              some (String.mk ((u₁.drop w).take bodyLen), p,
                p + kw.length + w + bodyLen)
            else none
        else none
      else none
    match attempt with
    | some r => some r
    | none => tryHintAt restKws u p

/-- `re.search` for the debit/credit hint patterns: leftmost match, with the
captured group and the full-match span (fuel-indexed). -/
def hintSearchGo (kws : List String) : Nat → List Char → Nat →
    Option (String × Nat × Nat)
  | 0, u, p => tryHintAt kws u p
  | fuel + 1, u, p =>
    match tryHintAt kws u p with
    | some r => some r
    | none =>
      match u with
      | [] => none
      | _ :: rest => hintSearchGo kws fuel rest (p + 1)

/-- Strip the given characters from both ends (`str.strip(" .,:;")`). -/
def stripBoth (bad : List Char) (s : String) : String :=
  let l := s.data.dropWhile (bad.contains ·)
  String.mk ((l.reverse.dropWhile (bad.contains ·)).reverse)

/-- Does `\b(?:and|but|then)\b` match at the head of `u`, where `prev` is
the character just before `u` (each alternative starts and ends with word
characters, so the boundaries reduce to the neighbours being non-word)? -/
def wordStopHere (prev : Option Char) (u : List Char) : Bool :=
  ["and", "but", "then"].any (fun w =>
    w.data.isPrefixOf u &&
    (match prev with
     | none => true
     | some c => !isWordCh c) &&
    (match (u.drop w.length).head? with
     | none => true
     | some c => !isWordCh c))

/-- Prefix of the text before the first `\b(?:and|but|then)\b`
(`re.split(..., maxsplit=1)[0]`). -/
def cutWordStopGo (prev : Option Char) (u : List Char) : List Char :=
  match u with
  | [] => []
  | c :: rest =>
    if wordStopHere prev (c :: rest) then []
    else c :: cutWordStopGo (some c) rest

/-- Prefix before the first `[.,;]` (`re.split(r"[.,;]", ..., 1)[0]`). -/
def cutPunct (u : List Char) : List Char :=
  u.takeWhile (fun c => !(c = '.' || c = ',' || c = ';'))

/-- `str.replace(" account", "")`: remove every occurrence, left to right
(fuel-indexed). -/
def removeAccountSubGo : Nat → List Char → List Char
  | 0, _ => []
  | fuel + 1, u =>
    match u with
    | [] => []
    | c :: rest =>
      if " account".data.isPrefixOf (c :: rest) then
        removeAccountSubGo fuel ((c :: rest).drop 8)
      else c :: removeAccountSubGo fuel rest

/-- `str.replace(" account", "")`: remove every occurrence, left to right. -/
def removeAccountSub (u : List Char) : List Char :=
  removeAccountSubGo u.length u

/-- `re.sub(r"\s+", " ", s)`: collapse every whitespace run to one space
(fuel-indexed). -/
def collapseWsRunGo : Nat → List Char → List Char
  | 0, _ => []
  | fuel + 1, u =>
    match u with
    | [] => []
    | c :: rest =>
      if c.isWhitespace then
        ' ' :: collapseWsRunGo fuel (rest.dropWhile Char.isWhitespace)
      else c :: collapseWsRunGo fuel rest

/-- `re.sub(r"\s+", " ", s)`: collapse every whitespace run to one space. -/
def collapseWsGo (u : List Char) : List Char :=
  collapseWsRunGo u.length u

/-- `_clean_hint`. -/
def cleanHint (value : Option String) : Option String :=
  match value with
  | none => none
  | some v =>
    if v = "" then none
    else
      let c₁ := stripBoth [' ', '.', ',', ':', ';'] v
      let c₂ := cutWordStopGo none c₁.data
      let c₃ := cutPunct c₂
      let c₄ := String.mk
        (collapseWsGo (pyStrip (String.mk (removeAccountSub c₃))).data)
      if c₄ = "" then none else some c₄

/-- `_extract_debit_hint`.  The source line
`return hint, match.span() if hint else (None, None)` parses as
`return (hint, (match.span() if hint else (None, None)))`: when the hint
cleans to nothing the "span" is the tuple `(None, None)`, not `None` —
hence the second component's doubly-optional type. -/
def extractDebitHint (text : String) :
    Option String × Option (Option Nat × Option Nat) :=
  match hintSearchGo ["for", "to", "on"] text.data.length text.data 0 with
  | none => (none, none)
  | some (grp, a, b) =>
    match cleanHint (some grp) with
    | some h => (some h, some (some a, some b))
    | none => (none, some (none, none))

/-- The trailing-text fallback of `_extract_credit_hint` (`text[span[1]:]`,
rejected when identical to the debit hint). -/
def creditTrailing (text : String) (amountSpan : Option (Nat × Nat))
    (debitHint : Option String) : Option String :=
  match amountSpan with
  | some (_, a₁) =>
    let trailing := String.mk (text.data.drop a₁)
    match cleanHint (some trailing) with
    | some h => if debitHint ≠ some h then some h else none
    | none => none
  | none => none

/-- `_extract_credit_hint`: the explicit credit phrase, else the segment
strictly between the amount and the debit hint, else the trailing text.
The guard `amount_span and debit_span and amount_span[1] < debit_span[0]`
evaluates `int < None` — a `TypeError` — whenever the debit pattern matched
but its hint cleaned to nothing (the `(None, None)` span). -/
def extractCreditHint (text : String) (amountSpan : Option (Nat × Nat))
    (debitSpan : Option (Option Nat × Option Nat))
    (debitHint : Option String) : Except PyErr (Option String) :=
  match hintSearchGo ["from", "using", "with", "via"] text.data.length
      text.data 0 with
  | some (grp, _, _) => .ok (cleanHint (some grp))
  | none =>
    match amountSpan, debitSpan with
    | some (a₀, a₁), some (d₀?, _) =>
      match d₀? with
      | none => .error .typeError
      | some d₀ =>
        if a₁ < d₀ then
          let between := String.mk ((text.data.drop a₁).take (d₀ - a₁))
          match cleanHint (some between) with
          | some h => .ok (some h)
          | none => .ok (creditTrailing text (some (a₀, a₁)) debitHint)
        else .ok (creditTrailing text (some (a₀, a₁)) debitHint)
    | _, _ => .ok (creditTrailing text amountSpan debitHint)

/-- `[a-z0-9]` (no IGNORECASE on `_TOKEN_PATTERN`). -/
def isTokenCh (c : Char) : Bool := isDigitCh c || ('a' ≤ c && c ≤ 'z')

/-- `_TOKEN_PATTERN.findall`: the maximal `[a-z0-9]+` runs, in order
(fuel-indexed). -/
def tokenRunsGo : Nat → List Char → List String
  | 0, _ => []
  | fuel + 1, u =>
    match u with
    | [] => []
    | c :: rest =>
      if isTokenCh c then
        String.mk (c :: rest.takeWhile isTokenCh) ::
          tokenRunsGo fuel (rest.dropWhile isTokenCh)
      else tokenRunsGo fuel rest

/-- `_TOKEN_PATTERN.findall`: the maximal `[a-z0-9]+` runs, in order. -/
def tokenRuns (u : List Char) : List String :=
  tokenRunsGo u.length u

/-- `_STOPWORDS`. -/
def STOPWORDS : List String :=
  ["a", "an", "and", "for", "from", "of", "on", "paid", "the", "to", "using",
   "with", "via"]

/-- `_extract_keywords`: token runs minus stopwords, de-duplicated with
order preserved. -/
def extractKeywords (text : String) : List String :=
  (tokenRuns text.data).foldl
    (fun acc t => if t ∈ STOPWORDS ∨ t ∈ acc then acc else acc ++ [t]) []

/-- `ParsedExpense` (`missing_fields` is a Python set; it is modelled as the
list built in the membership-test order amount, debit, credit). -/
structure ParsedExpense where
  amount : Option ℚ
  currency : Option String
  narration : String
  debit_hint : Option String
  credit_hint : Option String
  keywords : List String
  missing_fields : List String
  source_message_id : Option String := none

/-- `parse_expense_text`. -/
def parseExpenseText (message : String) (defaultCurrency : Option String := none)
    (sourceMessageId : Option String := none) : Except PyErr ParsedExpense :=
  let narration := pyStrip message
  let working := normalizeWs (pyLower narration)
  let (amount, currency, amountSpan) :=
    extractAmountAndCurrency working defaultCurrency
  let (debitHint, debitSpan) := extractDebitHint working
  match extractCreditHint working amountSpan debitSpan debitHint with
  | .error e => .error e
  | .ok creditHint =>
    let keywords := extractKeywords working
    let missing :=
      (if amount = none then ["amount"] else []) ++
      (if debitHint = none then ["debit_account"] else []) ++
      (if creditHint = none then ["credit_account"] else [])
    .ok { amount, currency, narration
          debit_hint := debitHint
          credit_hint := creditHint
          keywords
          missing_fields := missing
          source_message_id := sourceMessageId }

/-! ## Account candidate ranking (`parsing/expense.py`)

The two rapidfuzz scorers are external collaborators; the embedding is
parameterised by them.  rapidfuzz documents both as returning a similarity
in `[0, 100]`; theorems that need the bound carry it as a hypothesis. -/

/-- The query input of `rank_account_candidates`: a single string or a
sequence of terms. -/
inductive QueryTerms where
  | ofString (s : String)
  | ofList (l : List String)

/-- A chart-of-accounts row as consumed by the ranker: a mapping with the
optional keys the source reads (`account_name`, `name`, `account_code`,
`aliases`, `alias`). -/
inductive AliasField where
  | absent
  | strv (s : String)
  | listv (l : List String)

/-- A chart-of-accounts record. -/
structure RawAccountRow where
  account_name : Option String := none
  name : Option String := none
  account_code : Option String := none
  aliases : AliasField := .absent
  aliasOne : AliasField := .absent

/-- `record.get(k₁) or record.get(k₂) or ""` (Python truthiness: `None` and
the empty string fall through). -/
def pickStr (a b : Option String) : String :=
  match a with
  | some s => if s ≠ "" then s else
      match b with
      | some t => if t ≠ "" then t else ""
      | none => ""
  | none =>
    match b with
    | some t => if t ≠ "" then t else ""
    | none => ""

/-- `record.get("aliases") or record.get("alias") or []`, then the
`isinstance` dispatch: a string becomes a singleton, an iterable keeps its
truthy entries. -/
def aliasValues (a b : AliasField) : List String :=
  let pick : AliasField :=
    match a with
    | .absent => b
    | .strv s => if s ≠ "" then .strv s else b
    | .listv l => if l ≠ [] then .listv l else b
  match pick with
  | .absent => []
  | .strv s => [s]
  | .listv l => l.filter (· ≠ "")

/-- `_normalize_query_terms`: a plain string is tokenized as-is (duplicates
kept); a sequence is tokenized term by term, skipping falsy terms, with
duplicates removed and order preserved. -/
def normalizeQueryTerms (queryTerms : QueryTerms) : List String :=
  match queryTerms with
  | .ofString s => tokenRuns (pyLower s).data
  | .ofList terms =>
    terms.foldl
      (fun acc term =>
        if term = "" then acc
        else
          (tokenRuns (pyLower term).data).foldl
            (fun acc₂ tok => if tok ∈ acc₂ then acc₂ else acc₂ ++ [tok]) acc)
      []

/-- Banker's rounding of a rational to the nearest integer (ties to even) —
Python `round`'s behaviour on exact halves. -/
def roundHalfEven (x : ℚ) : ℤ :=
  let f := ⌊x⌋
  let r := x - f
  if r < 1/2 then f
  else if r > 1/2 then f + 1
  else if Even f then f else f + 1

/-- `round(best_score, 4)`. -/
def round4 (x : ℚ) : ℚ :=
  (roundHalfEven (x * 10000) : ℚ) / 10000

/-- `max(0.2, 1.0 - index * 0.15)`. -/
def tokenWeight (index : Nat) : ℚ :=
  max 0.2 (1 - (index : ℚ) * 0.15)

/-- `_weighted_token_max`: best weighted partial-similarity of any token
against the label, `partialSim` standing for `fuzz.partial_ratio`. -/
def weightedTokenMax (partialSim : String → String → ℚ)
    (label : String) (tokens : List String) : ℚ :=
  (tokens.enum).foldl
    (fun score p => max score (tokenWeight p.1 * (partialSim p.2 label / 100)))
    0

/-- `_score_label`, `tokenSetSim` standing for `fuzz.token_set_ratio`
(the `label = ""` early return cannot fire at its call site — the blank-name
rows were already skipped — but is embedded faithfully). -/
def scoreLabel (tokenSetSim partialSim : String → String → ℚ)
    (label : String) (tokens : List String) (combinedQuery : String) : ℚ :=
  if label = "" then 0
  else
    max (tokenSetSim combinedQuery label / 100)
      (weightedTokenMax partialSim label tokens)

/-- `_score_alias`. -/
def scoreAlias (partialSim : String → String → ℚ)
    (aliasStr : String) (tokens : List String) : ℚ :=
  weightedTokenMax partialSim aliasStr tokens

/-- The candidate `reason` string. -/
def candidateReason (confidence : ℚ) (accountName : String) : String :=
  if confidence ≥ 0.95 then "Matched " ++ sqc ++ accountName ++ sqc
  else "Similar to " ++ sqc ++ accountName ++ sqc

/-- The scoring loop of `rank_account_candidates`, in account iteration
order (the `seen` accumulator holds codes of already-kept rows: a code is
reserved only after its row passes the confidence filter, as in the
source). -/
def scoreAccounts (tokenSetSim partialSim : String → String → ℚ)
    (tokens : List String) (combinedQuery : String) (minConfidence : ℚ) :
    List String → List RawAccountRow → List AccountCandidate
  | _, [] => []
  | seen, record :: rest =>
    let accountName := pyStrip (pickStr record.account_name record.name)
    let accountCode := pyStrip (pickStr record.account_code record.name)
    if accountName = "" ∨ accountCode = "" ∨ accountCode ∈ seen then
      scoreAccounts tokenSetSim partialSim tokens combinedQuery minConfidence
        seen rest
    else
      let aliases := aliasValues record.aliases record.aliasOne
      let cleanedName := pyLower accountName
      let bestScore := aliases.foldl
        (fun best al => max best (scoreAlias partialSim (pyLower al) tokens))
        (scoreLabel tokenSetSim partialSim cleanedName tokens combinedQuery)
      let confidence := round4 bestScore
      if confidence < minConfidence then
        scoreAccounts tokenSetSim partialSim tokens combinedQuery minConfidence
          seen rest
      else
        { account_name := accountName
          account_code := accountCode
          confidence := confidence
          reason := candidateReason confidence accountName } ::
        scoreAccounts tokenSetSim partialSim tokens combinedQuery minConfidence
          (accountCode :: seen) rest

/-- The descending-by-confidence order used for the final sort. -/
def confDesc (a b : AccountCandidate) : Prop :=
  b.confidence ≤ a.confidence

instance : DecidableRel confDesc := fun a b => by
  unfold confDesc; infer_instance

/-- `rank_account_candidates`: tokenize, score each account row, stable-sort
descending by confidence (Python's `list.sort` is stable; the insertion sort
below computes the same list), and truncate —
`scored[:limit] if limit and len(scored) > limit else scored`, so a zero
(falsy) `limit` skips truncation. -/
def rankAccountCandidates (tokenSetSim partialSim : String → String → ℚ)
    (queryTerms : QueryTerms) (accounts : List RawAccountRow)
    (limit : Nat := 5) (minConfidence : ℚ := 0.5) : List AccountCandidate :=
  let tokens := normalizeQueryTerms queryTerms
  if tokens = [] then []
  else
    let combinedQuery := String.intercalate " " tokens
    let scored := scoreAccounts tokenSetSim partialSim tokens combinedQuery
      minConfidence [] accounts
    let sorted := List.insertionSort confDesc scored
    if limit ≠ 0 ∧ limit < sorted.length then sorted.take limit else sorted

/-! ## Auxiliary predicates and sample instantiations used by the theorems -/

/-- Well-formedness of a repository state: every row id is below the
AUTOINCREMENT counter, and ids are pairwise distinct.  `wf_reachable` shows
every reachable state satisfies this. -/
def WF (s : RepoState) : Prop :=
  (∀ p ∈ s.rows, p.1 < s.nextId) ∧ (s.rows.map Prod.fst).Nodup

/-- The caller currently holds the lock of an existing row. -/
def ownsLock (s : RepoState) (jobId : Int) (lockId : String) : Prop :=
  ∃ r, rowsLookup s.rows jobId = some r ∧ r.locked_by = some lockId

/-- The row of a job id is gone, or it is locked (by someone). -/
def LockedOrGone (s : RepoState) (jobId : Int) : Prop :=
  rowsLookup s.rows jobId = none ∨
    ∃ r, rowsLookup s.rows jobId = some r ∧ r.locked_by ≠ none

instance : IsTrans AccountCandidate confDesc where
  trans a b c hab hbc := le_trans hbc hab

instance : IsTotal AccountCandidate confDesc where
  total a b := (le_total b.confidence a.confidence).imp id id

/-- A concrete stand-in for the rapidfuzz scorers in closed instantiations:
similarity 100 for equal strings, 0 otherwise (rapidfuzz's documented value
on identical strings is 100). -/
def eqSim (a b : String) : ℚ := if a = b then 100 else 0

/-- The at-most-one-owner invariant for a claimed job id: the id was already
allocated, and its row is either gone or locked. -/
def LockInv (s : RepoState) (jobId : Int) : Prop :=
  jobId < s.nextId ∧ LockedOrGone s jobId

/-! ## Sample data for closed instantiations -/

/-- A fresh retry job used by concrete instantiations. -/
def c1Job : RetryJob :=
  { thread_id := "t", payload := .null, next_run_at := ⟨0, 0⟩ }

/-- The repository after enqueueing `c1Job` into a fresh database. -/
def c1State : RepoState :=
  RetryQueue.runOps emptyRepo [.enqueue c1Job]

/-- `c1State` after worker "a" acquires job 1. -/
def c1Locked : RepoState :=
  { rows := [(1, { thread_id := "t", payload := .null, attempts := 0,
                   next_run_at := ⟨0, 0⟩, error := none,
                   locked_by := some "a", locked_at := some ⟨0, 0⟩ })],
    nextId := 2 }

/-- The job handed to worker "a". -/
def c1JobOut : RetryJob :=
  { thread_id := "t", payload := .null, next_run_at := ⟨0, 0⟩, attempts := 0,
    id := some 1, error := none }

/-- A job already at the attempts cap (constructible: `attempts = 5` passes
`__post_init__`). -/
def c2Job : RetryJob :=
  { thread_id := "t", payload := .null, next_run_at := ⟨0, 0⟩, attempts := 5 }

/-- The repository holding only `c2Job`. -/
def c2State : RepoState :=
  RetryQueue.runOps emptyRepo [.enqueue c2Job]

/-- A repository with one job locked by worker "w". -/
def c3State : RepoState :=
  RetryQueue.runOps emptyRepo [.enqueue c1Job, .acquire "w" ⟨0, 0⟩]

/-- A job with sub-second precision in `next_run_at` and a JSON payload. -/
def c10Job : RetryJob :=
  { thread_id := "t10", payload := .obj [("k", .str "v"), ("n", .num 7)],
    next_run_at := ⟨5, 250000⟩, attempts := 2, error := some "last" }

/-- A resolved, confirmable draft. -/
def c4Draft : ExpenseDraft :=
  { amount := 10, currency := "USD",
    debit_account := { account_code := "taxi", display_name := "Taxi", confidence := 1 },
    credit_account := { account_code := "cash", display_name := "Cash", confidence := 1 },
    posting_date := "2026-01-01", narration := "Paid $10 cash for taxi" }

/-- An approved conversation state carrying `c4Draft`. -/
def c4State : ConversationState :=
  { thread_id := "telegram:1", expense_draft := some c4Draft,
    confirmation_status := .approved }

/-- A ledger client that always fails (a 503-equivalent outage). -/
def c4Client : LedgerClient := fun _ => .error "503 Service Unavailable"

/-- An unauthorized incoming turn: non-empty message, user id 99. -/
def c5State : ConversationState :=
  { thread_id := "telegram:7", pending_message := some "Paid $5 for taxi",
    pending_message_id := some "41", pending_user_id := some 99,
    messages := [{ content := "earlier" }], error_log := ["old"] }

/-- A pending-confirmation state with a draft and a cancel reply. -/
def c9State : ConversationState :=
  { thread_id := "telegram:9", expense_draft := some c4Draft,
    account_candidates :=
      [{ account_name := "Taxi", account_code := "taxi", confidence := 1,
         reason := "r" }],
    clarifications_needed := ["debit_account"],
    pending_message := some " CANCEL ", pending_message_id := some "77",
    messages := [{ content := "Paid $10 cash for taxi" }],
    error_log := ["old"] }

/-- A state holding a draft, awaiting confirmation. -/
def c7State : ConversationState :=
  { thread_id := "telegram:8", expense_draft := some c4Draft }

/-- The all-zero similarity (for closed instantiations where the scores are
irrelevant, e.g. with `min_confidence = 0` every row passes the filter
whatever scorer rapidfuzz provides). -/
def zeroSim (a b : String) : ℚ := 0

/-- A one-row chart of accounts. -/
def c8Row : RawAccountRow :=
  { account_name := some "cash", account_code := some "c1" }

/-! # Lemmas -/

/-! ## Table lookup lemmas -/

theorem rowsLookup_append (l₁ l₂ : List (Int × Row)) (j : Int) :
    rowsLookup (l₁ ++ l₂) j =
      match rowsLookup l₁ j with
      | some r => some r
      | none => rowsLookup l₂ j := by
  induction l₁ with
  | nil => simp [rowsLookup]
  | cons p rest ih =>
    by_cases h : p.1 = j
    · simp [rowsLookup, h]
    · simp [rowsLookup, h, ih]

theorem rowsLookup_eq_none (l : List (Int × Row)) (j : Int)
    (h : ∀ p ∈ l, p.1 ≠ j) : rowsLookup l j = none := by
  induction l with
  | nil => rfl
  | cons p rest ih =>
    have hp : p.1 ≠ j := h p (by simp)
    simp only [rowsLookup, if_neg hp]
    exact ih fun q hq => h q (by simp [hq])

theorem rowsLookup_mem (l : List (Int × Row)) (j : Int) (r : Row)
    (h : rowsLookup l j = some r) : (j, r) ∈ l := by
  induction l with
  | nil => simp [rowsLookup] at h
  | cons p rest ih =>
    by_cases hp : p.1 = j
    · simp only [rowsLookup, if_pos hp] at h
      cases h
      have hpe : p = (j, p.2) := by rw [← hp]
      rw [← hpe]
      exact List.mem_cons_self _ _
    · simp only [rowsLookup, if_neg hp] at h
      exact List.mem_cons_of_mem _ (ih h)

theorem mem_rowsLookup (l : List (Int × Row)) (j : Int) (r : Row)
    (hnd : (l.map Prod.fst).Nodup) (h : (j, r) ∈ l) :
    rowsLookup l j = some r := by
  induction l with
  | nil => simp at h
  | cons p rest ih =>
    rcases List.mem_cons.mp h with heq | hmem
    · subst heq
      simp [rowsLookup]
    · have hp : p.1 ≠ j := by
        intro hpj
        have : j ∈ rest.map Prod.fst :=
          List.mem_map.mpr ⟨(j, r), hmem, rfl⟩
        simp only [List.map_cons, List.nodup_cons] at hnd
        exact hnd.1 (hpj ▸ this)
      simp only [rowsLookup, if_neg hp]
      exact ih (by simp only [List.map_cons, List.nodup_cons] at hnd; exact hnd.2)
        hmem

theorem rowsLookup_mapUpd_ne (l : List (Int × Row)) (cond : Int × Row → Bool)
    (upd : Row → Row) (jobId j : Int) (hne : j ≠ jobId)
    (hc : ∀ p, cond p = true → p.1 = jobId) :
    rowsLookup (l.map fun p => if cond p then (p.1, upd p.2) else p) j =
      rowsLookup l j := by
  induction l with
  | nil => rfl
  | cons p rest ih =>
    by_cases hcp : cond p
    · have h1 : p.1 = jobId := hc p hcp
      have hpj : p.1 ≠ j := fun hh => hne (hh ▸ h1)
      simp only [List.map_cons, if_pos hcp, rowsLookup, if_neg hpj]
      exact ih
    · by_cases hpj : p.1 = j
      · simp only [List.map_cons, if_neg hcp, rowsLookup, if_pos hpj]
      · simp only [List.map_cons, if_neg hcp, rowsLookup, if_neg hpj]
        exact ih

theorem rowsLookup_mapUpd_eq (l : List (Int × Row)) (cond : Int × Row → Bool)
    (upd : Row → Row) (jobId : Int)
    (hc : ∀ p, cond p = true → p.1 = jobId) :
    rowsLookup (l.map fun p => if cond p then (p.1, upd p.2) else p) jobId =
      (rowsLookup l jobId).map
        (fun r => if cond (jobId, r) then upd r else r) := by
  induction l with
  | nil => rfl
  | cons p rest ih =>
    by_cases hpj : p.1 = jobId
    · have hpe : (jobId, p.2) = p := by rw [← hpj]
      by_cases hcp : cond p
      · simp only [List.map_cons, if_pos hcp, rowsLookup, if_pos hpj,
          Option.map_some']
        rw [hpe, if_pos hcp]
      · simp only [List.map_cons, if_neg hcp, rowsLookup, if_pos hpj,
          Option.map_some']
        rw [hpe, if_neg hcp]
    · by_cases hcp : cond p
      · exact absurd (hc p hcp) hpj
      · simp only [List.map_cons, if_neg hcp, rowsLookup, if_neg hpj]
        exact ih

theorem rowsLookup_filter_ne (l : List (Int × Row)) (keep : Int × Row → Bool)
    (jobId j : Int) (hne : j ≠ jobId)
    (hk : ∀ p, keep p = false → p.1 = jobId) :
    rowsLookup (l.filter keep) j = rowsLookup l j := by
  induction l with
  | nil => rfl
  | cons p rest ih =>
    by_cases hkp : keep p
    · by_cases hpj : p.1 = j
      · simp only [List.filter_cons, if_pos hkp, rowsLookup, if_pos hpj]
      · simp only [List.filter_cons, if_pos hkp, rowsLookup, if_neg hpj]
        exact ih
    · have h1 : p.1 = jobId := hk p (Bool.not_eq_true _ ▸ hkp)
      have hpj : p.1 ≠ j := fun hh => hne (hh ▸ h1)
      simp only [List.filter_cons, if_neg hkp, rowsLookup, if_neg hpj]
      exact ih

theorem rowsLookup_filter_none (l : List (Int × Row)) (keep : Int × Row → Bool)
    (jobId : Int) (hall : ∀ p ∈ l, p.1 = jobId → keep p = false) :
    rowsLookup (l.filter keep) jobId = none := by
  apply rowsLookup_eq_none
  intro p hp
  rcases List.mem_filter.mp hp with ⟨hmem, hkeep⟩
  intro hpj
  rw [hall p hmem hpj] at hkeep
  exact Bool.false_ne_true hkeep

theorem seleStep_some (cur : DateTime) (acc : Option (Int × Row))
    (p q : Int × Row) (h : RetryQueue.seleStep cur acc p = some q) :
    acc = some q ∨
      (q = p ∧ p.2.locked_by = none ∧ DateTime.le p.2.next_run_at cur = true) := by
  cases acc with
  | none =>
    simp only [RetryQueue.seleStep] at h
    by_cases helig : (p.2.locked_by == none && DateTime.le p.2.next_run_at cur) = true
    · rw [if_pos helig] at h
      rcases (Bool.and_eq_true _ _).mp helig with ⟨h1, h2⟩
      cases h
      exact Or.inr ⟨rfl, beq_iff_eq.mp h1, h2⟩
    · rw [if_neg helig] at h
      exact Or.inl h
  | some b =>
    simp only [RetryQueue.seleStep] at h
    by_cases helig : (p.2.locked_by == none && DateTime.le p.2.next_run_at cur) = true
    · rw [if_pos helig] at h
      rcases (Bool.and_eq_true _ _).mp helig with ⟨h1, h2⟩
      by_cases hlt : (DateTime.lt p.2.next_run_at b.2.next_run_at
          || (p.2.next_run_at == b.2.next_run_at && decide (p.1 < b.1))) = true
      · rw [if_pos hlt] at h
        cases h
        exact Or.inr ⟨rfl, beq_iff_eq.mp h1, h2⟩
      · rw [if_neg hlt] at h
        exact Or.inl h
    · rw [if_neg helig] at h
      exact Or.inl h

theorem selectDue_aux (cur : DateTime) (l : List (Int × Row)) :
    ∀ (acc : Option (Int × Row)) (q : Int × Row),
      l.foldl (RetryQueue.seleStep cur) acc = some q →
      acc = some q ∨
        (q ∈ l ∧ q.2.locked_by = none ∧ DateTime.le q.2.next_run_at cur = true) := by
  induction l with
  | nil => intro acc q h; exact Or.inl h
  | cons p rest ih =>
    intro acc q h
    rcases ih (RetryQueue.seleStep cur acc p) q h with hstep | ⟨hmem, hrest⟩
    · rcases seleStep_some cur acc p q hstep with hacc | ⟨rfl, hp⟩
      · exact Or.inl hacc
      · exact Or.inr ⟨List.mem_cons_self _ _, hp⟩
    · exact Or.inr ⟨List.mem_cons_of_mem _ hmem, hrest⟩

theorem selectDue_spec (cur : DateTime) (l : List (Int × Row)) (q : Int × Row)
    (h : RetryQueue.selectDue l cur = some q) :
    q ∈ l ∧ q.2.locked_by = none ∧ DateTime.le q.2.next_run_at cur = true := by
  rcases selectDue_aux cur l none q h with hacc | hgood
  · cases hacc
  · exact hgood

theorem mkRetryJob_ok {t : String} {p : Json} {nr : DateTime} {a : Int}
    {ido : Option Int} {e : Option String} {j : RetryJob}
    (h : mkRetryJob t p nr a ido e = .ok j) :
    j = { thread_id := t, payload := p, next_run_at := nr, attempts := a,
          id := ido, error := e } ∧ 0 ≤ a ∧ a ≤ MAX_RETRY_ATTEMPTS := by
  unfold mkRetryJob at h
  split at h
  · cases h
  · split at h
    · cases h
    · cases h
      refine ⟨rfl, ?_, ?_⟩ <;> omega

theorem mkRetryJob_ok_of_valid {t : String} {p : Json} {nr : DateTime} {a : Int}
    {ido : Option Int} {e : Option String} (h0 : 0 ≤ a)
    (h5 : a ≤ MAX_RETRY_ATTEMPTS) :
    mkRetryJob t p nr a ido e =
      .ok { thread_id := t, payload := p, next_run_at := nr, attempts := a,
            id := ido, error := e } := by
  unfold mkRetryJob
  rw [if_neg (by omega), if_neg (by omega)]

/-! ## Well-formedness of reachable repository states -/

theorem mapFst_mapUpd (l : List (Int × Row)) (cond : Int × Row → Bool)
    (upd : Row → Row) :
    (l.map fun p => if cond p then (p.1, upd p.2) else p).map Prod.fst =
      l.map Prod.fst := by
  induction l with
  | nil => rfl
  | cons p rest ih =>
    by_cases hcp : cond p
    · simp only [List.map_cons, if_pos hcp, ih]
    · simp only [List.map_cons, if_neg hcp, ih]

theorem wf_mapUpd (s : RepoState) (cond : Int × Row → Bool) (upd : Row → Row)
    (h : WF s) :
    WF { rows := s.rows.map fun p => if cond p then (p.1, upd p.2) else p,
         nextId := s.nextId } := by
  constructor
  · intro p hp
    rcases List.mem_map.mp hp with ⟨q, hq, hqp⟩
    have : p.1 = q.1 := by
      by_cases hc : cond q
      · rw [if_pos hc] at hqp; rw [← hqp]
      · rw [if_neg hc] at hqp; rw [← hqp]
    rw [this]
    exact h.1 q hq
  · show ((s.rows.map _).map Prod.fst).Nodup
    rw [mapFst_mapUpd]
    exact h.2

theorem wf_filter (s : RepoState) (keep : Int × Row → Bool) (h : WF s) :
    WF { rows := s.rows.filter keep, nextId := s.nextId } := by
  constructor
  · intro p hp
    exact h.1 p (List.mem_filter.mp hp).1
  · exact h.2.sublist (List.Sublist.map Prod.fst (List.filter_sublist s.rows))

theorem wf_step (s : RepoState) (op : RetryQueue.Op) (h : WF s) :
    WF (RetryQueue.step s op) := by
  cases op with
  | enqueue job =>
    simp only [RetryQueue.step]
    by_cases hv : job.valid
    · rw [if_pos hv]
      simp only [RetryQueue.enqueue]
      constructor
      · intro p hp
        simp only [List.mem_append, List.mem_singleton] at hp
        show p.1 < s.nextId + 1
        rcases hp with hp | hp
        · have := h.1 p hp
          omega
        · rw [hp]
          show s.nextId < s.nextId + 1
          omega
      · simp only [List.map_append, List.map_cons, List.map_nil]
        rw [List.nodup_append]
        refine ⟨h.2, List.nodup_singleton _, ?_⟩
        intro x hx hx'
        rcases List.mem_map.mp hx with ⟨q, hq, hqx⟩
        have := h.1 q hq
        simp only [List.mem_singleton] at hx'
        omega
    · rw [if_neg hv]
      exact h
  | acquire w now =>
    simp only [RetryQueue.step, RetryQueue.acquireDueJob]
    by_cases hw : w = ""
    · rw [if_pos hw]
      exact h
    · rw [if_neg hw]
      cases hsel : RetryQueue.selectDue s.rows (serializeDatetime now) with
      | none => exact h
      | some sel =>
        simp only
        by_cases hhit : s.rows.any
            (fun p => p.1 == sel.1 && p.2.locked_by == none) = true
        · rw [if_pos hhit]
          exact wf_mapUpd s (fun p => p.1 == sel.1 && p.2.locked_by == none)
            (lockRow w (serializeDatetime now)) h
        · rw [if_neg hhit]
          exact h
  | markFailure jobId w e t =>
    simp only [RetryQueue.step, RetryQueue.markFailure]
    by_cases hw : w = ""
    · rw [if_pos hw]; exact h
    · rw [if_neg hw]
      by_cases hany : s.rows.any
          (fun p => p.1 == jobId && p.2.locked_by == some w) = true
      · rw [if_pos hany]
        exact wf_mapUpd s (fun p => p.1 == jobId && p.2.locked_by == some w)
          (failRow e (serializeDatetime t)) h
      · rw [if_neg hany]
        exact h
  | markSuccess jobId w =>
    simp only [RetryQueue.step, RetryQueue.markSuccess]
    by_cases hw : w = ""
    · rw [if_pos hw]; exact h
    · rw [if_neg hw]
      by_cases hany : s.rows.any
          (fun p => p.1 == jobId && p.2.locked_by == some w) = true
      · rw [if_pos hany]
        exact wf_filter s _ h
      · rw [if_neg hany]
        exact h
  | resetLock jobId =>
    exact wf_mapUpd s (fun p => p.1 == jobId) unlockRow h
  | deleteJob jobId =>
    exact wf_filter s _ h
  | getJob jobId => exact h

theorem nextId_mono (s : RepoState) (op : RetryQueue.Op) :
    s.nextId ≤ (RetryQueue.step s op).nextId := by
  cases op with
  | enqueue job =>
    simp only [RetryQueue.step]
    by_cases hv : job.valid
    · rw [if_pos hv]
      show s.nextId ≤ s.nextId + 1
      omega
    · rw [if_neg hv]
  | acquire w now =>
    simp only [RetryQueue.step, RetryQueue.acquireDueJob]
    by_cases hw : w = ""
    · rw [if_pos hw]
    · rw [if_neg hw]
      cases hsel : RetryQueue.selectDue s.rows (serializeDatetime now) with
      | none => exact le_refl _
      | some sel =>
        simp only
        by_cases hhit : s.rows.any
            (fun p => p.1 == sel.1 && p.2.locked_by == none) = true
        · rw [if_pos hhit]
        · rw [if_neg hhit]
  | markFailure jobId w e t =>
    simp only [RetryQueue.step, RetryQueue.markFailure]
    by_cases hw : w = ""
    · rw [if_pos hw]
    · rw [if_neg hw]
      by_cases hany : s.rows.any
          (fun p => p.1 == jobId && p.2.locked_by == some w) = true
      · rw [if_pos hany]
      · rw [if_neg hany]
  | markSuccess jobId w =>
    simp only [RetryQueue.step, RetryQueue.markSuccess]
    by_cases hw : w = ""
    · rw [if_pos hw]
    · rw [if_neg hw]
      by_cases hany : s.rows.any
          (fun p => p.1 == jobId && p.2.locked_by == some w) = true
      · rw [if_pos hany]
      · rw [if_neg hany]
  | resetLock jobId => exact le_refl _
  | deleteJob jobId => exact le_refl _
  | getJob jobId => exact le_refl _

/-! ## The lock invariant and its preservation -/

theorem lockInv_step (s : RepoState) (jobId : Int) (op : RetryQueue.Op)
    (hwf : WF s) (hinv : LockInv s jobId)
    (hnr : ¬ RetryQueue.releasesLock op jobId) :
    LockInv (RetryQueue.step s op) jobId := by
  obtain ⟨hlt, hlg⟩ := hinv
  cases op with
  | enqueue job =>
    simp only [RetryQueue.step]
    by_cases hv : job.valid
    · rw [if_pos hv]
      refine ⟨by show jobId < s.nextId + 1; omega, ?_⟩
      show LockedOrGone { rows := s.rows ++ _, nextId := s.nextId + 1 } jobId
      unfold LockedOrGone at hlg ⊢
      simp only
      rw [rowsLookup_append]
      rcases hlg with hnone | ⟨r, hr, hlock⟩
      · rw [hnone]
        left
        apply rowsLookup_eq_none
        intro p hp
        have hp1 : p.1 = s.nextId := by
          rcases List.mem_singleton.mp hp with rfl
          rfl
        omega
      · rw [hr]
        exact Or.inr ⟨r, rfl, hlock⟩
    · rw [if_neg hv]
      exact ⟨hlt, hlg⟩
  | acquire w now =>
    simp only [RetryQueue.step, RetryQueue.acquireDueJob]
    by_cases hw : w = ""
    · rw [if_pos hw]
      exact ⟨hlt, hlg⟩
    · rw [if_neg hw]
      cases hsel : RetryQueue.selectDue s.rows (serializeDatetime now) with
      | none => exact ⟨hlt, hlg⟩
      | some sel =>
        simp only
        by_cases hhit : s.rows.any
            (fun p => p.1 == sel.1 && p.2.locked_by == none) = true
        · rw [if_pos hhit]
          refine ⟨hlt, ?_⟩
          unfold LockedOrGone at hlg ⊢
          simp only
          have hc : ∀ p : Int × Row,
              (p.1 == sel.1 && p.2.locked_by == none) = true → p.1 = sel.1 := by
            intro p hp
            exact beq_iff_eq.mp ((Bool.and_eq_true _ _).mp hp).1
          by_cases hjs : jobId = sel.1
          · have hc' : ∀ p : Int × Row,
                (p.1 == sel.1 && p.2.locked_by == none) = true → p.1 = jobId :=
              fun p hp => (hc p hp).trans hjs.symm
            rw [rowsLookup_mapUpd_eq s.rows
              (fun p => p.1 == sel.1 && p.2.locked_by == none)
              (lockRow w (serializeDatetime now)) jobId hc']
            rcases hlg with hnone | ⟨r, hr, hlock⟩
            · rw [hnone]
              exact Or.inl rfl
            · rw [hr]
              have hcr : (jobId == sel.1 && r.locked_by == none) = false := by
                have h2 : (r.locked_by == none) = false :=
                  beq_eq_false_iff_ne.mpr hlock
                simp [h2]
              simp only [Option.map_some', hcr, Bool.false_eq_true, if_false]
              exact Or.inr ⟨r, rfl, hlock⟩
          · rw [rowsLookup_mapUpd_ne s.rows
              (fun p => p.1 == sel.1 && p.2.locked_by == none)
              (lockRow w (serializeDatetime now)) sel.1 jobId hjs hc]
            exact hlg
        · rw [if_neg hhit]
          exact ⟨hlt, hlg⟩
  | markFailure j w e t =>
    have hne : j ≠ jobId := hnr
    simp only [RetryQueue.step, RetryQueue.markFailure]
    by_cases hw : w = ""
    · rw [if_pos hw]
      exact ⟨hlt, hlg⟩
    · rw [if_neg hw]
      by_cases hany : s.rows.any
          (fun p => p.1 == j && p.2.locked_by == some w) = true
      · rw [if_pos hany]
        refine ⟨hlt, ?_⟩
        unfold LockedOrGone at hlg ⊢
        simp only
        have hc : ∀ p : Int × Row,
            (p.1 == j && p.2.locked_by == some w) = true → p.1 = j := by
          intro p hp
          exact beq_iff_eq.mp ((Bool.and_eq_true _ _).mp hp).1
        rw [rowsLookup_mapUpd_ne s.rows
          (fun p => p.1 == j && p.2.locked_by == some w)
          (failRow e (serializeDatetime t)) j jobId (Ne.symm hne) hc]
        exact hlg
      · rw [if_neg hany]
        exact ⟨hlt, hlg⟩
  | markSuccess j w =>
    have hne : j ≠ jobId := hnr
    simp only [RetryQueue.step, RetryQueue.markSuccess]
    by_cases hw : w = ""
    · rw [if_pos hw]
      exact ⟨hlt, hlg⟩
    · rw [if_neg hw]
      by_cases hany : s.rows.any
          (fun p => p.1 == j && p.2.locked_by == some w) = true
      · rw [if_pos hany]
        refine ⟨hlt, ?_⟩
        unfold LockedOrGone at hlg ⊢
        simp only
        have hk : ∀ p : Int × Row,
            (!(p.1 == j && p.2.locked_by == some w)) = false → p.1 = j := by
          intro p hp
          have : (p.1 == j && p.2.locked_by == some w) = true := by
            simpa using hp
          exact beq_iff_eq.mp ((Bool.and_eq_true _ _).mp this).1
        rw [rowsLookup_filter_ne s.rows _ j jobId (Ne.symm hne) hk]
        exact hlg
      · rw [if_neg hany]
        exact ⟨hlt, hlg⟩
  | resetLock j =>
    have hne : j ≠ jobId := hnr
    simp only [RetryQueue.step, RetryQueue.resetLock]
    refine ⟨hlt, ?_⟩
    unfold LockedOrGone at hlg ⊢
    simp only
    have hc : ∀ p : Int × Row, (p.1 == j) = true → p.1 = j := by
      intro p hp
      exact beq_iff_eq.mp hp
    rw [rowsLookup_mapUpd_ne s.rows (fun p => p.1 == j) unlockRow
      j jobId (Ne.symm hne) hc]
    exact hlg
  | deleteJob j =>
    have hne : j ≠ jobId := hnr
    simp only [RetryQueue.step, RetryQueue.deleteJob]
    refine ⟨hlt, ?_⟩
    unfold LockedOrGone at hlg ⊢
    simp only
    have hk : ∀ p : Int × Row, (!(p.1 == j)) = false → p.1 = j := by
      intro p hp
      have : (p.1 == j) = true := by simpa using hp
      exact beq_iff_eq.mp this
    rw [rowsLookup_filter_ne s.rows _ j jobId (Ne.symm hne) hk]
    exact hlg
  | getJob j =>
    exact ⟨hlt, hlg⟩

theorem lockInv_runOps (s : RepoState) (jobId : Int)
    (ops : List RetryQueue.Op) (hwf : WF s) (hinv : LockInv s jobId)
    (hops : ∀ op ∈ ops, ¬ RetryQueue.releasesLock op jobId) :
    LockInv (RetryQueue.runOps s ops) jobId ∧ WF (RetryQueue.runOps s ops) := by
  induction ops generalizing s with
  | nil => exact ⟨hinv, hwf⟩
  | cons op rest ih =>
    have h₁ := lockInv_step s jobId op hwf hinv (hops op (by simp))
    have h₂ := wf_step s op hwf
    exact ih (RetryQueue.step s op) h₂ h₁ fun o ho => hops o (by simp [ho])

/-! ## Characterisation of a successful acquisition -/

theorem acquire_ok (s : RepoState) (w : String) (now : DateTime)
    (s' : RepoState) (J : RetryJob) (hwf : WF s)
    (h : RetryQueue.acquireDueJob s w now = (s', .ok (some J))) :
    ∃ jid, J.id = some jid ∧
      (∃ r, rowsLookup s.rows jid = some r ∧ r.locked_by = none ∧
        DateTime.le r.next_run_at (serializeDatetime now) = true) ∧
      LockInv s' jid := by
  simp only [RetryQueue.acquireDueJob] at h
  by_cases hw : w = ""
  · rw [if_pos hw] at h
    cases (Prod.mk.injEq _ _ _ _ ▸ h).2
  · rw [if_neg hw] at h
    cases hsel : RetryQueue.selectDue s.rows (serializeDatetime now) with
    | none =>
      rw [hsel] at h
      cases (Prod.mk.injEq _ _ _ _ ▸ h).2
    | some sel =>
      rw [hsel] at h
      simp only at h
      by_cases hhit : s.rows.any
          (fun p => p.1 == sel.1 && p.2.locked_by == none) = true
      · rw [if_pos hhit] at h
        obtain ⟨hmem, hunlocked, hdue⟩ := selectDue_spec _ _ _ hsel
        have hpair : (sel.1, sel.2) ∈ s.rows := by
          have : sel = (sel.1, sel.2) := rfl
          rw [← this]
          exact hmem
        have hlook : rowsLookup s.rows sel.1 = some sel.2 :=
          mem_rowsLookup s.rows sel.1 sel.2 hwf.2 hpair
        have hc : ∀ p : Int × Row,
            (p.1 == sel.1 && p.2.locked_by == none) = true → p.1 = sel.1 := by
          intro p hp
          exact beq_iff_eq.mp ((Bool.and_eq_true _ _).mp hp).1
        have hlook₁ : rowsLookup (s.rows.map fun p =>
            if p.1 == sel.1 && p.2.locked_by == none then
              (p.1, lockRow w (serializeDatetime now) p.2)
            else p) sel.1 = some (lockRow w (serializeDatetime now) sel.2) := by
          rw [rowsLookup_mapUpd_eq s.rows
            (fun p => p.1 == sel.1 && p.2.locked_by == none)
            (lockRow w (serializeDatetime now)) sel.1 hc]
          rw [hlook]
          have hcr : (sel.1 == sel.1 && sel.2.locked_by == none) = true := by
            simp [hunlocked]
          simp only [Option.map_some', hcr, if_true]
        simp only [hlook₁] at h
        obtain ⟨hs', hres⟩ := Prod.mk.injEq _ _ _ _ ▸ h
        cases hrj : rowToJob sel.1 (lockRow w (serializeDatetime now) sel.2) with
        | error e =>
          rw [hrj] at hres
          simp only [Except.map] at hres
          exact Except.noConfusion hres
        | ok j =>
          rw [hrj] at hres
          simp only [Except.map, Except.ok.injEq, Option.some.injEq] at hres
          have hrjJ : rowToJob sel.1 (lockRow w (serializeDatetime now) sel.2) = .ok J := by
            rw [hrj, hres]
          have hJeq3 := (mkRetryJob_ok (by
            have hmk := hrjJ
            unfold rowToJob at hmk
            exact hmk)).1
          refine ⟨sel.1, by rw [hJeq3], ⟨sel.2, hlook, hunlocked, hdue⟩, ?_⟩
          constructor
          · rw [← hs']
            show sel.1 < s.nextId
            exact hwf.1 _ hpair
          · unfold LockedOrGone
            rw [← hs']
            simp only
            rw [hlook₁]
            exact Or.inr ⟨_, rfl, by simp [lockRow]⟩
      · rw [if_neg hhit] at h
        cases (Prod.mk.injEq _ _ _ _ ▸ h).2

/-! ## Reachability gives well-formedness -/

theorem wf_empty : WF emptyRepo := by
  constructor
  · intro p hp
    simp [emptyRepo] at hp
  · simp [emptyRepo]

theorem wf_runOps (s : RepoState) (ops : List RetryQueue.Op) (h : WF s) :
    WF (RetryQueue.runOps s ops) := by
  induction ops generalizing s with
  | nil => exact h
  | cons op rest ih => exact ih (RetryQueue.step s op) (wf_step s op h)

theorem wf_reachable (s : RepoState) (h : RetryQueue.Reachable s) : WF s := by
  obtain ⟨ops, rfl⟩ := h
  exact wf_runOps emptyRepo ops wf_empty

/-! # Claim theorems -/

/-- C1: at most one worker holds a given retry job at any instant.  For
every reachable repository state and distinct worker ids `A ≠ B`, if
`acquire_due_job` hands job `J` (with id `jid`) to `A`, then (i) the
claiming update succeeded only because `J`'s row was still unlocked at
claim time, and (ii) however many further operations run that do not
release `jid`'s lock (no `mark_failure`/`mark_success`/`reset_lock`/`delete`
on it — any other enqueues, acquisitions by any workers, and operations on
other jobs are allowed), an `acquire_due_job` call by `B` never returns a
job with `J`'s id. -/
theorem retry_queue_at_most_one_owner
    (s : RepoState) (hreach : RetryQueue.Reachable s)
    (A B : String) (hAB : A ≠ B)
    (now : DateTime) (J : RetryJob) (jid : Int) (s₁ : RepoState)
    (hacq : RetryQueue.acquireDueJob s A now = (s₁, .ok (some J)))
    (hjid : J.id = some jid)
    (ops : List RetryQueue.Op)
    (hops : ∀ op ∈ ops, ¬ RetryQueue.releasesLock op jid) :
    (∃ r, rowsLookup s.rows jid = some r ∧ r.locked_by = none) ∧
    (∀ (now' : DateTime) (s₂ : RepoState) (J' : RetryJob),
      RetryQueue.acquireDueJob (RetryQueue.runOps s₁ ops) B now' =
        (s₂, .ok (some J')) →
      J'.id ≠ some jid) := by
  have hwf : WF s := wf_reachable s hreach
  obtain ⟨jid', hj', hpre, hinv₁⟩ := acquire_ok s A now s₁ J hwf hacq
  have hjj : jid' = jid := by
    rw [hjid] at hj'
    exact (Option.some.injEq _ _ ▸ hj').symm
  subst hjj
  constructor
  · obtain ⟨r, hr, hrl, _⟩ := hpre
    exact ⟨r, hr, hrl⟩
  · intro now' s₂ J' hacq'
    have hwf₁ : WF s₁ := by
      have hstep := wf_step s (.acquire A now) hwf
      simp only [RetryQueue.step, hacq] at hstep
      exact hstep
    obtain ⟨hinv₂, hwf₂⟩ := lockInv_runOps s₁ jid' ops hwf₁ hinv₁ hops
    obtain ⟨jid₂, hj₂, ⟨r₂, hr₂, hrl₂, _⟩, _⟩ :=
      acquire_ok _ B now' s₂ J' hwf₂ hacq'
    intro hcontra
    rw [hcontra] at hj₂
    have hjj₂ : jid₂ = jid' := (Option.some.injEq _ _ ▸ hj₂).symm
    subst hjj₂
    rcases hinv₂.2 with hnone | ⟨r', hr', hl'⟩
    · rw [hnone] at hr₂
      cases hr₂
    · rw [hr'] at hr₂
      have : r' = r₂ := Option.some.injEq _ _ ▸ hr₂
      rw [this] at hl'
      exact hl' hrl₂

/-- Closed instantiation of `retry_queue_at_most_one_owner`: a single job
enqueued into a fresh database, acquired by worker "a"; after worker "c"
also polls (a non-releasing operation), worker "b" can never be handed
job 1. -/
theorem retry_queue_at_most_one_owner_witness :
    "a" ≠ "b" ∧
    RetryQueue.acquireDueJob c1State "a" ⟨0, 0⟩ =
      (c1Locked, .ok (some c1JobOut)) ∧
    ((∃ r, rowsLookup c1State.rows 1 = some r ∧ r.locked_by = none) ∧
     (∀ (now' : DateTime) (s₂ : RepoState) (J' : RetryJob),
        RetryQueue.acquireDueJob
            (RetryQueue.runOps c1Locked [.acquire "c" ⟨0, 0⟩]) "b" now' =
          (s₂, .ok (some J')) →
        J'.id ≠ some 1)) := by
  refine ⟨by decide, by rfl, ?_⟩
  exact retry_queue_at_most_one_owner c1State ⟨[.enqueue c1Job], rfl⟩
    "a" "b" (by decide) ⟨0, 0⟩ c1JobOut 1 c1Locked (by rfl) (by rfl)
    [.acquire "c" ⟨0, 0⟩]
    (by
      intro op hop
      rcases List.mem_singleton.mp hop with rfl
      simp [RetryQueue.releasesLock])

/-! ## Attempt-count bounds of materialised jobs -/

theorem rowToJob_ok_bounds (jobId : Int) (r : Row) (j : RetryJob)
    (h : rowToJob jobId r = .ok j) :
    0 ≤ j.attempts ∧ j.attempts ≤ MAX_RETRY_ATTEMPTS := by
  unfold rowToJob at h
  obtain ⟨hjeq, h0, h5⟩ := mkRetryJob_ok h
  rw [hjeq]
  exact ⟨h0, h5⟩

theorem get_ok_bounds (s : RepoState) (jobId : Int) (j : RetryJob)
    (h : RetryQueue.get s jobId = .ok (some j)) :
    0 ≤ j.attempts ∧ j.attempts ≤ MAX_RETRY_ATTEMPTS := by
  unfold RetryQueue.get at h
  cases hlk : rowsLookup s.rows jobId with
  | none =>
    rw [hlk] at h
    simp at h
  | some r =>
    simp only [hlk] at h
    cases hrj : rowToJob jobId r with
    | error e =>
      rw [hrj] at h
      simp [Except.map] at h
    | ok j' =>
      rw [hrj] at h
      simp only [Except.map, Except.ok.injEq, Option.some.injEq] at h
      rw [← h]
      exact rowToJob_ok_bounds jobId r j' hrj

theorem acquire_ok_bounds (s : RepoState) (w : String) (now : DateTime)
    (s' : RepoState) (j : RetryJob)
    (h : RetryQueue.acquireDueJob s w now = (s', .ok (some j))) :
    0 ≤ j.attempts ∧ j.attempts ≤ MAX_RETRY_ATTEMPTS := by
  simp only [RetryQueue.acquireDueJob] at h
  by_cases hw : w = ""
  · rw [if_pos hw] at h
    cases (Prod.mk.injEq _ _ _ _ ▸ h).2
  · rw [if_neg hw] at h
    cases hsel : RetryQueue.selectDue s.rows (serializeDatetime now) with
    | none =>
      rw [hsel] at h
      cases (Prod.mk.injEq _ _ _ _ ▸ h).2
    | some sel =>
      rw [hsel] at h
      simp only at h
      by_cases hhit : s.rows.any
          (fun p => p.1 == sel.1 && p.2.locked_by == none) = true
      · rw [if_pos hhit] at h
        obtain ⟨_, hres⟩ := Prod.mk.injEq _ _ _ _ ▸ h
        cases hlk : rowsLookup (s.rows.map fun p =>
            if p.1 == sel.1 && p.2.locked_by == none then
              (p.1, lockRow w (serializeDatetime now) p.2)
            else p) sel.1 with
        | none =>
          rw [hlk] at hres
          cases hres
        | some r =>
          simp only [hlk] at hres
          cases hrj : rowToJob sel.1 r with
          | error e =>
            rw [hrj] at hres
            simp [Except.map] at hres
          | ok j' =>
            rw [hrj] at hres
            simp only [Except.map, Except.ok.injEq, Option.some.injEq] at hres
            rw [← hres]
            exact rowToJob_ok_bounds sel.1 r j' hrj
      · rw [if_neg hhit] at h
        cases (Prod.mk.injEq _ _ _ _ ▸ h).2

theorem markFailure_ok_bounds (s : RepoState) (jobId : Int) (w e : String)
    (nr : DateTime) (s' : RepoState) (j : RetryJob)
    (h : RetryQueue.markFailure s jobId w e nr = (s', .ok j)) :
    0 ≤ j.attempts ∧ j.attempts ≤ MAX_RETRY_ATTEMPTS := by
  simp only [RetryQueue.markFailure] at h
  by_cases hw : w = ""
  · rw [if_pos hw] at h
    cases (Prod.mk.injEq _ _ _ _ ▸ h).2
  · rw [if_neg hw] at h
    by_cases hany : s.rows.any
        (fun p => p.1 == jobId && p.2.locked_by == some w) = true
    · rw [if_pos hany] at h
      obtain ⟨_, hres⟩ := Prod.mk.injEq _ _ _ _ ▸ h
      cases hlk : rowsLookup (s.rows.map fun p =>
          if p.1 == jobId && p.2.locked_by == some w then
            (p.1, failRow e (serializeDatetime nr) p.2)
          else p) jobId with
      | none =>
        rw [hlk] at hres
        cases hres
      | some r =>
        simp only [hlk] at hres
        exact rowToJob_ok_bounds jobId r j hres
    · rw [if_neg hany] at h
      cases (Prod.mk.injEq _ _ _ _ ▸ h).2

/-- C2 (amended): attempts bounds.  `RetryJob` construction succeeds exactly
when `attempts` lies in `[0, MAX_RETRY_ATTEMPTS]`; `is_exhausted` holds
exactly when `attempts ≥ MAX_RETRY_ATTEMPTS`; and every job successfully
materialised by a repository read — `get`, `acquire_due_job`, or
`mark_failure`'s return value — has attempts within the bounds (reading a
row whose stored attempts exceed the cap raises `ValueError` instead of
returning a job).  The original claim's further assertion that every
repository operation preserves the bound on the stored row is refuted by
`retry_attempts_cap_counterexample`. -/
theorem retry_attempts_bounds :
    (∀ (t : String) (p : Json) (nr : DateTime) (a : Int) (ido : Option Int)
        (e : Option String),
      (∃ j, mkRetryJob t p nr a ido e = .ok j) ↔
        (0 ≤ a ∧ a ≤ MAX_RETRY_ATTEMPTS)) ∧
    (∀ j : RetryJob, j.isExhausted = true ↔ MAX_RETRY_ATTEMPTS ≤ j.attempts) ∧
    (∀ (s : RepoState) (jobId : Int) (j : RetryJob),
      RetryQueue.get s jobId = .ok (some j) →
      0 ≤ j.attempts ∧ j.attempts ≤ MAX_RETRY_ATTEMPTS) ∧
    (∀ (s : RepoState) (w : String) (now : DateTime) (s' : RepoState)
        (j : RetryJob),
      RetryQueue.acquireDueJob s w now = (s', .ok (some j)) →
      0 ≤ j.attempts ∧ j.attempts ≤ MAX_RETRY_ATTEMPTS) ∧
    (∀ (s : RepoState) (jobId : Int) (w e : String) (nr : DateTime)
        (s' : RepoState) (j : RetryJob),
      RetryQueue.markFailure s jobId w e nr = (s', .ok j) →
      0 ≤ j.attempts ∧ j.attempts ≤ MAX_RETRY_ATTEMPTS) := by
  refine ⟨?_, ?_, ?_, ?_, ?_⟩
  · intro t p nr a ido e
    constructor
    · rintro ⟨j, hj⟩
      exact (mkRetryJob_ok hj).2
    · rintro ⟨h0, h5⟩
      exact ⟨_, mkRetryJob_ok_of_valid h0 h5⟩
  · intro j
    unfold RetryJob.isExhausted
    exact decide_eq_true_iff
  · exact get_ok_bounds
  · exact acquire_ok_bounds
  · exact markFailure_ok_bounds

/-- C2 witness: the bounds theorem applied at a concrete read — `get` on the
stored copy of `c2Job` returns a job whose attempts satisfy the bounds. -/
theorem retry_attempts_bounds_witness :
    0 ≤ (5 : Int) ∧ (5 : Int) ≤ MAX_RETRY_ATTEMPTS := by
  have h := retry_attempts_bounds.2.2.1 c2State 1
    { thread_id := "t", payload := .null, next_run_at := ⟨0, 0⟩, attempts := 5,
      id := some 1, error := none } (by rfl)
  exact h

/-- C2 counterexample: from a reachable state (a fresh database, one
constructible job with `attempts = 5` enqueued and then acquired by worker
"w"), `mark_failure` — called by the lock holder — commits a stored
`attempts` of `6 > MAX_RETRY_ATTEMPTS` and then raises `ValueError` while
materialising the row, so the repository operation does not preserve the
`[0, cap]` bound on stored rows. -/
theorem retry_attempts_cap_counterexample :
    (rowsLookup (RetryQueue.runOps emptyRepo
        [.enqueue c2Job, .acquire "w" ⟨0, 0⟩,
         .markFailure 1 "w" "boom" ⟨60, 0⟩]).rows 1).map Row.attempts =
      some 6 ∧
    (RetryQueue.markFailure
        (RetryQueue.runOps emptyRepo [.enqueue c2Job, .acquire "w" ⟨0, 0⟩])
        1 "w" "boom" ⟨60, 0⟩).2 = .error .valueError ∧
    ¬ (6 : Int) ≤ MAX_RETRY_ATTEMPTS := by
  refine ⟨by rfl, by rfl, by decide⟩

/-! ## Lock-mismatch characterisation (C3) -/

theorem any_cond_iff_owns (s : RepoState) (jobId : Int) (lockId : String)
    (hnd : (s.rows.map Prod.fst).Nodup) :
    (s.rows.any (fun p => p.1 == jobId && p.2.locked_by == some lockId))
      = true ↔ ownsLock s jobId lockId := by
  rw [List.any_eq_true]
  constructor
  · rintro ⟨p, hmem, hcond⟩
    obtain ⟨h1, h2⟩ := (Bool.and_eq_true _ _).mp hcond
    have hpj : p.1 = jobId := beq_iff_eq.mp h1
    have hpl : p.2.locked_by = some lockId := beq_iff_eq.mp h2
    have hpe : (jobId, p.2) = p := by rw [← hpj]
    refine ⟨p.2, ?_, hpl⟩
    exact mem_rowsLookup s.rows jobId p.2 hnd (hpe ▸ hmem)
  · rintro ⟨r, hr, hl⟩
    refine ⟨(jobId, r), rowsLookup_mem s.rows jobId r hr, ?_⟩
    simp [hl]

/-- C3: `mark_failure` and `mark_success` raise the lock-mismatch
`RetryQueueError` exactly when the caller does not hold the lock of an
existing row (reassigned, resolved, or nonexistent job), and in that case
the table is left entirely unchanged; when the caller does hold the lock,
`mark_failure` rewrites the row to attempts+1 / the given error / the
serialised `next_run_at` with the lock cleared, and `mark_success` deletes
exactly that row. -/
theorem mark_lock_mismatch (s : RepoState) (hwf : WF s) (jobId : Int)
    (lockId err : String) (nr : DateTime) (hlock : lockId ≠ "") :
    ((RetryQueue.markFailure s jobId lockId err nr).2 =
        .error .retryQueueError ↔ ¬ ownsLock s jobId lockId) ∧
    ((RetryQueue.markFailure s jobId lockId err nr).2 =
        .error .retryQueueError →
      (RetryQueue.markFailure s jobId lockId err nr).1 = s) ∧
    (∀ r, rowsLookup s.rows jobId = some r → r.locked_by = some lockId →
      rowsLookup (RetryQueue.markFailure s jobId lockId err nr).1.rows jobId =
        some { r with
                 attempts := r.attempts + 1
                 next_run_at := serializeDatetime nr
                 error := some err
                 locked_by := none
                 locked_at := none }) ∧
    ((RetryQueue.markSuccess s jobId lockId).2 = .error .retryQueueError ↔
      ¬ ownsLock s jobId lockId) ∧
    ((RetryQueue.markSuccess s jobId lockId).2 = .error .retryQueueError →
      (RetryQueue.markSuccess s jobId lockId).1 = s) ∧
    (ownsLock s jobId lockId →
      (RetryQueue.markSuccess s jobId lockId).2 = .ok () ∧
      rowsLookup (RetryQueue.markSuccess s jobId lockId).1.rows jobId = none ∧
      (∀ j : Int, j ≠ jobId →
        rowsLookup (RetryQueue.markSuccess s jobId lockId).1.rows j =
          rowsLookup s.rows j)) := by
  have hanyiff := any_cond_iff_owns s jobId lockId hwf.2
  by_cases hany : s.rows.any
      (fun p => p.1 == jobId && p.2.locked_by == some lockId) = true
  · have howns : ownsLock s jobId lockId := hanyiff.mp hany
    refine ⟨?_, ?_, ?_, ?_, ?_, ?_⟩
    · constructor
      · intro hres
        exfalso
        simp only [RetryQueue.markFailure, if_neg hlock, if_pos hany] at hres
        cases hlk : rowsLookup (s.rows.map fun p =>
            if p.1 == jobId && p.2.locked_by == some lockId then
              (p.1, failRow err (serializeDatetime nr) p.2)
            else p) jobId with
        | none =>
          simp only [hlk] at hres
          cases hres
        | some r =>
          simp only [hlk] at hres
          unfold rowToJob mkRetryJob at hres
          split at hres
          · cases hres
          · split at hres
            · cases hres
            · cases hres
      · intro hno
        exact absurd howns hno
    · intro hres
      exfalso
      have := hanyiff.mpr
      simp only [RetryQueue.markFailure, if_neg hlock, if_pos hany] at hres
      cases hlk : rowsLookup (s.rows.map fun p =>
          if p.1 == jobId && p.2.locked_by == some lockId then
            (p.1, failRow err (serializeDatetime nr) p.2)
          else p) jobId with
      | none =>
        simp only [hlk] at hres
        cases hres
      | some r =>
        simp only [hlk] at hres
        unfold rowToJob mkRetryJob at hres
        split at hres
        · cases hres
        · split at hres
          · cases hres
          · cases hres
    · intro r hr hl
      simp only [RetryQueue.markFailure, if_neg hlock, if_pos hany]
      have hc : ∀ p : Int × Row,
          (p.1 == jobId && p.2.locked_by == some lockId) = true →
          p.1 = jobId := by
        intro p hp
        exact beq_iff_eq.mp ((Bool.and_eq_true _ _).mp hp).1
      rw [rowsLookup_mapUpd_eq s.rows
        (fun p => p.1 == jobId && p.2.locked_by == some lockId)
        (failRow err (serializeDatetime nr)) jobId hc]
      rw [hr]
      have hcr : (jobId == jobId && r.locked_by == some lockId) = true := by
        simp [hl]
      simp only [Option.map_some', hcr, if_true]
      rfl
    · constructor
      · intro hres
        exfalso
        simp only [RetryQueue.markSuccess, if_neg hlock, if_pos hany] at hres
        cases hres
      · intro hno
        exact absurd howns hno
    · intro hres
      exfalso
      simp only [RetryQueue.markSuccess, if_neg hlock, if_pos hany] at hres
      cases hres
    · intro _
      obtain ⟨r, hr, hl⟩ := howns
      refine ⟨?_, ?_, ?_⟩
      · simp only [RetryQueue.markSuccess, if_neg hlock, if_pos hany]
      · simp only [RetryQueue.markSuccess, if_neg hlock, if_pos hany]
        apply rowsLookup_filter_none
        intro p hmem hpj
        have hpe : (jobId, p.2) = p := by rw [← hpj]
        have : rowsLookup s.rows jobId = some p.2 :=
          mem_rowsLookup s.rows jobId p.2 hwf.2 (hpe ▸ hmem)
        rw [hr] at this
        have hp2 : p.2 = r := (Option.some.injEq _ _ ▸ this).symm
        simp [hpj, hp2, hl]
      · intro j hj
        simp only [RetryQueue.markSuccess, if_neg hlock, if_pos hany]
        apply rowsLookup_filter_ne s.rows _ jobId j hj
        intro p hp
        simp only [Bool.not_eq_false'] at hp
        exact beq_iff_eq.mp ((Bool.and_eq_true _ _).mp hp).1
  · have hnot : ¬ ownsLock s jobId lockId := fun ho => hany (hanyiff.mpr ho)
    have hanyf : s.rows.any
        (fun p => p.1 == jobId && p.2.locked_by == some lockId) = false :=
      Bool.not_eq_true _ ▸ hany
    refine ⟨?_, ?_, ?_, ?_, ?_, ?_⟩
    · simp only [RetryQueue.markFailure, if_neg hlock, hanyf,
        Bool.false_eq_true, if_false]
      exact ⟨fun _ => hnot, fun _ => trivial⟩
    · intro _
      simp only [RetryQueue.markFailure, if_neg hlock, hanyf,
        Bool.false_eq_true, if_false]
    · intro r hr hl
      exfalso
      exact hnot ⟨r, hr, hl⟩
    · simp only [RetryQueue.markSuccess, if_neg hlock, hanyf,
        Bool.false_eq_true, if_false]
      exact ⟨fun _ => hnot, fun _ => trivial⟩
    · intro _
      simp only [RetryQueue.markSuccess, if_neg hlock, hanyf,
        Bool.false_eq_true, if_false]
    · intro ho
      exact absurd ho hnot

/-- C3 witness: the lock-mismatch characterisation applied to the concrete
repository `c3State` (one row, locked by "w"). -/
theorem mark_lock_mismatch_witness :
    "w" ≠ "" ∧
    (((RetryQueue.markFailure c3State 1 "w" "x" ⟨60, 0⟩).2 =
        .error .retryQueueError ↔ ¬ ownsLock c3State 1 "w") ∧
     ((RetryQueue.markFailure c3State 1 "w" "x" ⟨60, 0⟩).2 =
        .error .retryQueueError →
       (RetryQueue.markFailure c3State 1 "w" "x" ⟨60, 0⟩).1 = c3State) ∧
     (∀ r, rowsLookup c3State.rows 1 = some r → r.locked_by = some "w" →
       rowsLookup (RetryQueue.markFailure c3State 1 "w" "x" ⟨60, 0⟩).1.rows 1 =
         some { r with
                  attempts := r.attempts + 1
                  next_run_at := serializeDatetime ⟨60, 0⟩
                  error := some "x"
                  locked_by := none
                  locked_at := none }) ∧
     ((RetryQueue.markSuccess c3State 1 "w").2 = .error .retryQueueError ↔
       ¬ ownsLock c3State 1 "w") ∧
     ((RetryQueue.markSuccess c3State 1 "w").2 = .error .retryQueueError →
       (RetryQueue.markSuccess c3State 1 "w").1 = c3State) ∧
     (ownsLock c3State 1 "w" →
       (RetryQueue.markSuccess c3State 1 "w").2 = .ok () ∧
       rowsLookup (RetryQueue.markSuccess c3State 1 "w").1.rows 1 = none ∧
       (∀ j : Int, j ≠ 1 →
         rowsLookup (RetryQueue.markSuccess c3State 1 "w").1.rows j =
           rowsLookup c3State.rows j))) := by
  refine ⟨by decide, ?_⟩
  exact mark_lock_mismatch c3State
    (wf_reachable c3State ⟨[.enqueue c1Job, .acquire "w" ⟨0, 0⟩], rfl⟩)
    1 "w" "x" ⟨60, 0⟩ (by decide)

/-- C10: enqueue/get round trip with sub-second truncation.  For every
well-formed repository and constructible job, `get` on the id returned by
`enqueue` yields the job with its id assigned and `next_run_at` truncated to
whole seconds (`_serialize_datetime` zeroes the microsecond part); when the
input carries no sub-second part the read-back equals the input except for
the assigned id.  Payloads live in the JSON-native domain, where
`json.dumps`/`json.loads` round-trips. -/
theorem enqueue_get_roundtrip (s : RepoState) (hwf : WF s) (job : RetryJob)
    (h0 : 0 ≤ job.attempts) (h5 : job.attempts ≤ MAX_RETRY_ATTEMPTS) :
    (RetryQueue.enqueue s job).1.id = some s.nextId ∧
    RetryQueue.get (RetryQueue.enqueue s job).2 s.nextId =
      .ok (some { job with
                    id := some s.nextId
                    next_run_at := serializeDatetime job.next_run_at }) ∧
    (job.next_run_at.usec = 0 →
      RetryQueue.get (RetryQueue.enqueue s job).2 s.nextId =
        .ok (some { job with id := some s.nextId })) := by
  have hnone : rowsLookup s.rows s.nextId = none := by
    apply rowsLookup_eq_none
    intro p hp
    have := hwf.1 p hp
    omega
  have hsome : rowsLookup (RetryQueue.enqueue s job).2.rows s.nextId =
      some { thread_id := job.thread_id, payload := job.payload,
             attempts := job.attempts,
             next_run_at := serializeDatetime job.next_run_at,
             error := job.error, locked_by := none, locked_at := none } := by
    show rowsLookup (s.rows ++ [_]) s.nextId = _
    rw [rowsLookup_append, hnone]
    simp [rowsLookup]
  have hget : RetryQueue.get (RetryQueue.enqueue s job).2 s.nextId =
      .ok (some { job with
                    id := some s.nextId
                    next_run_at := serializeDatetime job.next_run_at }) := by
    unfold RetryQueue.get
    simp only [hsome]
    unfold rowToJob
    rw [mkRetryJob_ok_of_valid h0 h5]
    rfl
  refine ⟨rfl, hget, ?_⟩
  intro hu
  rw [hget]
  have heq : serializeDatetime job.next_run_at = job.next_run_at := by
    cases hnr : job.next_run_at with
    | mk sec usec =>
      rw [hnr] at hu
      simp only [serializeDatetime]
      simp only at hu
      rw [hu]
  rw [heq]

/-- C10 witness: the round trip for `c10Job` (microseconds 250000 over a
fresh database): the stored job comes back with id 1 and `next_run_at`
truncated from ⟨5, 250000⟩ to ⟨5, 0⟩. -/
theorem enqueue_get_roundtrip_witness :
    0 ≤ c10Job.attempts ∧ c10Job.attempts ≤ MAX_RETRY_ATTEMPTS ∧
    ((RetryQueue.enqueue emptyRepo c10Job).1.id = some emptyRepo.nextId ∧
     RetryQueue.get (RetryQueue.enqueue emptyRepo c10Job).2 emptyRepo.nextId =
       .ok (some { c10Job with
                     id := some emptyRepo.nextId
                     next_run_at := serializeDatetime c10Job.next_run_at }) ∧
     (c10Job.next_run_at.usec = 0 →
       RetryQueue.get (RetryQueue.enqueue emptyRepo c10Job).2 emptyRepo.nextId =
         .ok (some { c10Job with id := some emptyRepo.nextId }))) := by
  refine ⟨by decide, by decide, ?_⟩
  exact enqueue_get_roundtrip emptyRepo wf_empty c10Job (by decide) (by decide)

/-- C4: for every approved conversation state with a draft, when posting the
journal entry fails because the ledger is unavailable, the coordinator hands
the serialized two-line payload to `RetryQueueRepository.enqueue` as a fresh
job with `attempts = 0` and `next_run_at = now + 1 minute` (stored with the
usual whole-second serialisation), keyed to the conversation's thread — the
confirmed expense is never silently lost.  The coordinator's failure branch
is modelled from the spec (§4.5); the precondition checks and payload
construction are `post_confirmed_expense` from `graph/posting.py`. -/
theorem posting_failure_enqueues (client : LedgerClient)
    (s : ConversationState) (repo : RepoState) (now : DateTime)
    (draft : ExpenseDraft) (emsg : String)
    (hdraft : s.expense_draft = some draft)
    (happroved : s.confirmation_status = .approved)
    (hfail : client (buildJournalEntryPayload draft) = .error emsg) :
    postWithRetry client s repo now =
      (s,
       { rows := repo.rows ++
           [(repo.nextId,
             { thread_id := s.thread_id
               payload := .obj (buildJournalEntryPayload draft)
               attempts := 0
               next_run_at := serializeDatetime (now.addSec 60)
               error := none
               locked_by := none
               locked_at := none })]
         nextId := repo.nextId + 1 },
       .queued { thread_id := s.thread_id
                 payload := .obj (buildJournalEntryPayload draft)
                 next_run_at := now.addSec 60
                 attempts := 0
                 id := some repo.nextId
                 error := none }) := by
  unfold postWithRetry postConfirmedExpense
  simp only [hdraft]
  rw [if_neg (by rw [happroved]; simp)]
  rw [hfail]
  rfl

/-- C4 witness: posting `c4State` against the always-failing ledger client
enqueues the payload with `next_run_at = now + 60 s` and `attempts = 0`. -/
theorem posting_failure_enqueues_witness :
    c4State.expense_draft = some c4Draft ∧
    c4State.confirmation_status = .approved ∧
    c4Client (buildJournalEntryPayload c4Draft) =
      .error "503 Service Unavailable" ∧
    postWithRetry c4Client c4State emptyRepo ⟨100, 0⟩ =
      (c4State,
       { rows := emptyRepo.rows ++
           [(emptyRepo.nextId,
             { thread_id := c4State.thread_id
               payload := .obj (buildJournalEntryPayload c4Draft)
               attempts := 0
               next_run_at := serializeDatetime (DateTime.addSec ⟨100, 0⟩ 60)
               error := none
               locked_by := none
               locked_at := none })]
         nextId := emptyRepo.nextId + 1 },
       .queued { thread_id := c4State.thread_id
                 payload := .obj (buildJournalEntryPayload c4Draft)
                 next_run_at := DateTime.addSec ⟨100, 0⟩ 60
                 attempts := 0
                 id := some emptyRepo.nextId
                 error := none }) := by
  refine ⟨rfl, rfl, rfl, ?_⟩
  exact posting_failure_enqueues c4Client c4State emptyRepo ⟨100, 0⟩ c4Draft
    "503 Service Unavailable" rfl rfl rfl

/-- C5: for every incoming turn (a turn always carries a message that strips
to non-empty — the Telegram handler drops empty texts before invoking the
graph), when the authorization allow-list is non-empty and the acting user
id is absent or not a member, the entry node fails with the distinct
`PermissionError` before any state mutation: the returned state is exactly
the input state, so draft, message history, clarifications, candidates,
confirmation status and error log are untouched. -/
theorem entry_denies_unauthorized (allowed : List Int) (s : ConversationState)
    (hne : allowed ≠ [])
    (hmsg : pyStrip (s.pending_message.getD "") ≠ "")
    (huser : s.pending_user_id = none ∨
      ∀ uid, s.pending_user_id = some uid → uid ∉ allowed) :
    entryNode allowed s = (s, some .permissionError) ∧
    (entryNode allowed s).1.expense_draft = s.expense_draft ∧
    (entryNode allowed s).1.messages = s.messages ∧
    (entryNode allowed s).1.clarifications_needed = s.clarifications_needed ∧
    (entryNode allowed s).1.account_candidates = s.account_candidates ∧
    (entryNode allowed s).1.confirmation_status = s.confirmation_status ∧
    (entryNode allowed s).1.error_log = s.error_log ∧
    EntryErr.permissionError ≠ EntryErr.valueError := by
  have hmain : entryNode allowed s = (s, some .permissionError) := by
    unfold entryNode
    rw [if_neg hmsg]
    rw [if_pos]
    refine (Bool.and_eq_true _ _).mpr ⟨?_, ?_⟩
    · simp only [Bool.not_eq_true']
      cases allowed with
      | nil => exact absurd rfl hne
      | cons a rest => rfl
    · cases hu : s.pending_user_id with
      | none => rfl
      | some uid =>
        simp only
        rcases huser with hnone | hmem
        · rw [hu] at hnone
          cases hnone
        · simp only [Bool.not_eq_true']
          simpa using hmem uid hu
  refine ⟨hmain, ?_, ?_, ?_, ?_, ?_, ?_, by simp⟩ <;> rw [hmain]

/-- C5 witness: the allow-list `[1, 2]` and the unauthorized turn
`c5State` (user id 99, non-empty message). -/
theorem entry_denies_unauthorized_witness :
    ([1, 2] : List Int) ≠ [] ∧
    pyStrip (c5State.pending_message.getD "") ≠ "" ∧
    (c5State.pending_user_id = none ∨
      ∀ uid, c5State.pending_user_id = some uid → uid ∉ ([1, 2] : List Int)) ∧
    (entryNode [1, 2] c5State = (c5State, some .permissionError) ∧
     (entryNode [1, 2] c5State).1.expense_draft = c5State.expense_draft ∧
     (entryNode [1, 2] c5State).1.messages = c5State.messages ∧
     (entryNode [1, 2] c5State).1.clarifications_needed =
       c5State.clarifications_needed ∧
     (entryNode [1, 2] c5State).1.account_candidates =
       c5State.account_candidates ∧
     (entryNode [1, 2] c5State).1.confirmation_status =
       c5State.confirmation_status ∧
     (entryNode [1, 2] c5State).1.error_log = c5State.error_log ∧
     EntryErr.permissionError ≠ EntryErr.valueError) := by
  have hm : pyStrip (c5State.pending_message.getD "") = "Paid $5 for taxi" :=
    rfl
  refine ⟨by decide, by rw [hm]; decide, ?_, ?_⟩
  · right
    intro uid huid
    cases huid
    decide
  · exact entry_denies_unauthorized [1, 2] c5State (by decide)
      (by rw [hm]; decide)
      (Or.inr (by intro uid huid; cases huid; decide))

/-! ## Confirmation vocabulary helpers -/

theorem invalidCommandMsg_ne_empty (u : String) : invalidCommandMsg u ≠ "" := by
  intro h
  have hlen := congrArg String.length h
  simp only [invalidCommandMsg, String.length_append, sqc] at hlen
  simp at hlen
  exact absurd hlen.1.1.1.1 (by decide)

theorem mem_confirm_ne_empty (n : String) (h : n ∈ CONFIRM_COMMANDS) :
    n ≠ "" := by
  rintro rfl
  exact absurd h (by decide)

theorem mem_cancel_ne_empty (n : String) (h : n ∈ CANCEL_COMMANDS) :
    n ≠ "" := by
  rintro rfl
  exact absurd h (by decide)

theorem mem_edit_ne_empty (n : String) (h : n ∈ EDIT_COMMANDS) : n ≠ "" := by
  rintro rfl
  exact absurd h (by decide)

theorem apply_confirm_some (s : ConversationState) (u : String)
    (hmem : pyLower (pyStrip u) ∈ CONFIRM_COMMANDS)
    (hdraft : s.expense_draft ≠ none) :
    applyConfirmationDecision s u =
      ({ s with confirmation_status := .approved }, .approved) := by
  unfold applyConfirmationDecision
  rw [if_neg (mem_confirm_ne_empty _ hmem), if_pos hmem]
  cases hdr : s.expense_draft with
  | none => exact absurd hdr hdraft
  | some d => rfl

theorem apply_confirm_none (s : ConversationState) (u : String)
    (hmem : pyLower (pyStrip u) ∈ CONFIRM_COMMANDS)
    (hdraft : s.expense_draft = none) :
    applyConfirmationDecision s u =
      ({ s with error_log :=
          s.error_log ++ ["There is no expense draft to approve."] },
       .invalid) := by
  unfold applyConfirmationDecision
  rw [if_neg (mem_confirm_ne_empty _ hmem), if_pos hmem, hdraft]
  show (ConversationState.recordError s _, Decision.invalid) = _
  unfold ConversationState.recordError
  rw [if_pos (by decide)]
  rw [hdraft]

theorem apply_cancel (s : ConversationState) (u : String)
    (hmem : pyLower (pyStrip u) ∈ CANCEL_COMMANDS) :
    applyConfirmationDecision s u =
      ({ s with confirmation_status := .rejected }, .rejected) := by
  unfold applyConfirmationDecision
  have hnc : pyLower (pyStrip u) ∉ CONFIRM_COMMANDS := by
    intro hc
    exact absurd hc ((by decide :
      ∀ x ∈ CANCEL_COMMANDS, x ∉ CONFIRM_COMMANDS) _ hmem)
  rw [if_neg (mem_cancel_ne_empty _ hmem), if_neg hnc, if_pos hmem]

theorem apply_edit (s : ConversationState) (u : String)
    (hmem : pyLower (pyStrip u) ∈ EDIT_COMMANDS) :
    applyConfirmationDecision s u =
      ({ s with confirmation_status := .pending }, .edit) := by
  unfold applyConfirmationDecision
  have hnc : pyLower (pyStrip u) ∉ CONFIRM_COMMANDS := by
    intro hc
    exact absurd hc ((by decide :
      ∀ x ∈ EDIT_COMMANDS, x ∉ CONFIRM_COMMANDS) _ hmem)
  have hnl : pyLower (pyStrip u) ∉ CANCEL_COMMANDS := by
    intro hc
    exact absurd hc ((by decide :
      ∀ x ∈ EDIT_COMMANDS, x ∉ CANCEL_COMMANDS) _ hmem)
  rw [if_neg (mem_edit_ne_empty _ hmem), if_neg hnc, if_neg hnl, if_pos hmem]

theorem apply_invalid (s : ConversationState) (u : String)
    (hne : pyLower (pyStrip u) ≠ "")
    (hnc : pyLower (pyStrip u) ∉ CONFIRM_COMMANDS)
    (hnl : pyLower (pyStrip u) ∉ CANCEL_COMMANDS)
    (hnd : pyLower (pyStrip u) ∉ EDIT_COMMANDS) :
    applyConfirmationDecision s u =
      ({ s with confirmation_status := .pending,
                error_log := s.error_log ++ [invalidCommandMsg u] },
       .invalid) := by
  unfold applyConfirmationDecision
  rw [if_neg hne, if_neg hnc, if_neg hnl, if_neg hnd]
  show ({ ConversationState.recordError s _ with
          confirmation_status := .pending }, Decision.invalid) = _
  unfold ConversationState.recordError
  rw [if_pos (invalidCommandMsg_ne_empty u)]

/-- C6 (code bug): `parse_expense_text` is not total.  The source line
`return hint, match.span() if hint else (None, None)` in
`_extract_debit_hint` binds by precedence as
`return (hint, (match.span() if hint else (None, None)))` — contradicting
the function's own annotation `tuple[str | None, tuple[int, int] | None]` —
so when the debit phrase cleans to nothing the "span" is `(None, None)`,
and `_extract_credit_hint` then evaluates `amount_span[1] < debit_span[0]`,
an `int < None` comparison that raises `TypeError`.  Concretely, for the
input "paid 5 for and" (amount present, debit group "and" cleaned away by
the conjunction cut, no credit preposition) the parse raises. -/
theorem parse_expense_text_raises :
    extractDebitHint (normalizeWs (pyLower (pyStrip "paid 5 for and"))) =
      (none, some (none, none)) ∧
    parseExpenseText "paid 5 for and" none none = .error .typeError :=
  ⟨rfl, rfl⟩

/-- C7: the confirmation step trims and lowercases the reply and maps it
through the command vocabulary: a confirm synonym approves (or fails as
invalid, recording an error, when no draft exists), a cancel synonym
rejects unconditionally, an edit synonym resets the status to pending and
signals edit, and any other non-empty input is invalid — status pending and
a diagnostic appended to the error log. -/
theorem apply_confirmation_vocabulary (s : ConversationState)
    (userInput : String) :
    (pyLower (pyStrip userInput) ∈ CONFIRM_COMMANDS →
      (s.expense_draft ≠ none →
        applyConfirmationDecision s userInput =
          ({ s with confirmation_status := .approved }, .approved)) ∧
      (s.expense_draft = none →
        applyConfirmationDecision s userInput =
          ({ s with error_log :=
              s.error_log ++ ["There is no expense draft to approve."] },
           .invalid))) ∧
    (pyLower (pyStrip userInput) ∈ CANCEL_COMMANDS →
      applyConfirmationDecision s userInput =
        ({ s with confirmation_status := .rejected }, .rejected)) ∧
    (pyLower (pyStrip userInput) ∈ EDIT_COMMANDS →
      applyConfirmationDecision s userInput =
        ({ s with confirmation_status := .pending }, .edit)) ∧
    (pyLower (pyStrip userInput) ≠ "" →
      pyLower (pyStrip userInput) ∉ CONFIRM_COMMANDS →
      pyLower (pyStrip userInput) ∉ CANCEL_COMMANDS →
      pyLower (pyStrip userInput) ∉ EDIT_COMMANDS →
      applyConfirmationDecision s userInput =
        ({ s with confirmation_status := .pending,
                  error_log := s.error_log ++ [invalidCommandMsg userInput] },
         .invalid)) := by
  refine ⟨fun hmem => ⟨fun hd => ?_, fun hd => ?_⟩, fun hmem => ?_,
    fun hmem => ?_, fun hne hnc hnl hnd => ?_⟩
  · exact apply_confirm_some s userInput hmem hd
  · exact apply_confirm_none s userInput hmem hd
  · exact apply_cancel s userInput hmem
  · exact apply_edit s userInput hmem
  · exact apply_invalid s userInput hne hnc hnl hnd

/-- C7 witness: the reply " CONFIRM " (mixed case, surrounding whitespace)
on `c7State`, which holds a pending draft, transitions the status to
approved. -/
theorem apply_confirmation_vocabulary_witness :
    pyLower (pyStrip " CONFIRM ") ∈ CONFIRM_COMMANDS ∧
    c7State.expense_draft ≠ none ∧
    applyConfirmationDecision c7State " CONFIRM " =
      ({ c7State with confirmation_status := .approved }, .approved) := by
  refine ⟨by decide, by simp [c7State], ?_⟩
  exact (apply_confirmation_vocabulary c7State " CONFIRM ").1 (by decide)
    |>.1 (by simp [c7State])

/-- C9: a rejection or edit decision (the trimmed, lowercased pending reply
is a cancel or edit synonym) clears the attempt-scoped fields —
`expense_draft`, `account_candidates`, `clarifications_needed` — while the
thread history and `thread_id` are unchanged and the error log only gains
an entry. -/
theorem confirmation_reset_frame (s : ConversationState)
    (hdec : pyLower (pyStrip (pyStrip (s.pending_message.getD "")))
        ∈ CANCEL_COMMANDS ∨
      pyLower (pyStrip (pyStrip (s.pending_message.getD "")))
        ∈ EDIT_COMMANDS) :
    (handleConfirmation s).expense_draft = none ∧
    (handleConfirmation s).account_candidates = [] ∧
    (handleConfirmation s).clarifications_needed = [] ∧
    (handleConfirmation s).messages = s.messages ∧
    (handleConfirmation s).thread_id = s.thread_id ∧
    ∃ extra, (handleConfirmation s).error_log = s.error_log ++ extra := by
  have hne : pyStrip (s.pending_message.getD "") ≠ "" := by
    intro h0
    rw [h0] at hdec
    rcases hdec with h | h
    · exact absurd h (by decide)
    · exact absurd h (by decide)
  unfold handleConfirmation
  rw [if_neg hne]
  rcases hdec with hmem | hmem
  · rw [apply_cancel s _ hmem]
    simp only [cancelExpenseAttempt, ConversationState.recordError]
    rw [if_pos (by decide : ("User cancelled the expense." : String) ≠ "")]
    exact ⟨rfl, rfl, rfl, rfl, rfl, ["User cancelled the expense."], rfl⟩
  · rw [apply_edit s _ hmem]
    simp only [cancelExpenseAttempt, ConversationState.recordError]
    rw [if_pos (by decide : ("User requested edits." : String) ≠ "")]
    exact ⟨rfl, rfl, rfl, rfl, rfl, ["User requested edits."], rfl⟩

/-- C9 witness: the reset-frame property on `c9State` (draft, candidates
and clarifications present; pending reply " CANCEL "). -/
theorem confirmation_reset_frame_witness :
    (pyLower (pyStrip (pyStrip (c9State.pending_message.getD "")))
        ∈ CANCEL_COMMANDS ∨
      pyLower (pyStrip (pyStrip (c9State.pending_message.getD "")))
        ∈ EDIT_COMMANDS) ∧
    ((handleConfirmation c9State).expense_draft = none ∧
     (handleConfirmation c9State).account_candidates = [] ∧
     (handleConfirmation c9State).clarifications_needed = [] ∧
     (handleConfirmation c9State).messages = c9State.messages ∧
     (handleConfirmation c9State).thread_id = c9State.thread_id ∧
     ∃ extra, (handleConfirmation c9State).error_log =
       c9State.error_log ++ extra) := by
  refine ⟨Or.inl (by decide), ?_⟩
  exact confirmation_reset_frame c9State (Or.inl (by decide))

/-! ## Ranking bounds and stability -/

theorem roundHalfEven_le (x : ℚ) (n : ℤ) (h : x ≤ n) : roundHalfEven x ≤ n := by
  unfold roundHalfEven
  have hf : ⌊x⌋ ≤ n := by
    have h2 := Int.floor_le_floor (α := ℚ) h
    rwa [Int.floor_intCast] at h2
  by_cases h1 : x - ⌊x⌋ < 1 / 2
  · rw [if_pos h1]
    exact hf
  · rw [if_neg h1]
    have hlt : (⌊x⌋ : ℚ) < x := by
      have : (1 : ℚ) / 2 ≤ x - ⌊x⌋ := le_of_not_lt h1
      linarith
    have hfn : ⌊x⌋ < n := by
      have : (⌊x⌋ : ℚ) < (n : ℚ) := lt_of_lt_of_le hlt h
      exact_mod_cast this
    by_cases h2 : x - ⌊x⌋ > 1 / 2
    · rw [if_pos h2]
      omega
    · rw [if_neg h2]
      by_cases h3 : Even ⌊x⌋
      · rw [if_pos h3]
        exact hf
      · rw [if_neg h3]
        omega

theorem round4_le_one (x : ℚ) (h : x ≤ 1) : round4 x ≤ 1 := by
  unfold round4
  have h1 : x * 10000 ≤ ((10000 : ℤ) : ℚ) := by
    push_cast
    linarith
  have h2 : roundHalfEven (x * 10000) ≤ 10000 := roundHalfEven_le _ _ h1
  rw [div_le_one (by norm_num)]
  exact_mod_cast h2

theorem tokenWeight_mem_Icc (i : Nat) : 0 ≤ tokenWeight i ∧ tokenWeight i ≤ 1 := by
  unfold tokenWeight
  constructor
  · have : (0 : ℚ) ≤ 0.2 := by norm_num
    exact le_trans this (le_max_left _ _)
  · apply max_le
    · norm_num
    · have : (0 : ℚ) ≤ (i : ℚ) * 0.15 := by positivity
      linarith

theorem weightedTokenMax_le_one (partialSim : String → String → ℚ)
    (hps : ∀ a b, 0 ≤ partialSim a b ∧ partialSim a b ≤ 100)
    (label : String) (tokens : List String) :
    weightedTokenMax partialSim label tokens ≤ 1 := by
  unfold weightedTokenMax
  have hgen : ∀ (l : List (Nat × String)) (acc : ℚ), acc ≤ 1 →
      l.foldl (fun score p =>
        max score (tokenWeight p.1 * (partialSim p.2 label / 100))) acc ≤ 1 := by
    intro l
    induction l with
    | nil => intro acc hacc; exact hacc
    | cons p rest ih =>
      intro acc hacc
      apply ih
      apply max_le hacc
      have hw := tokenWeight_mem_Icc p.1
      have hp := hps p.2 label
      have h0 : 0 ≤ partialSim p.2 label / 100 := div_nonneg hp.1 (by norm_num)
      have h1 : partialSim p.2 label / 100 ≤ 1 := by
        rw [div_le_one (by norm_num)]
        exact hp.2
      calc tokenWeight p.1 * (partialSim p.2 label / 100)
          ≤ 1 * 1 := by
            apply mul_le_mul hw.2 h1 h0
            norm_num
        _ = 1 := by norm_num
  exact hgen _ 0 (by norm_num)

theorem scoreLabel_le_one (tokenSetSim partialSim : String → String → ℚ)
    (hts : ∀ a b, 0 ≤ tokenSetSim a b ∧ tokenSetSim a b ≤ 100)
    (hps : ∀ a b, 0 ≤ partialSim a b ∧ partialSim a b ≤ 100)
    (label : String) (tokens : List String) (combined : String) :
    scoreLabel tokenSetSim partialSim label tokens combined ≤ 1 := by
  unfold scoreLabel
  by_cases hl : label = ""
  · rw [if_pos hl]
    norm_num
  · rw [if_neg hl]
    apply max_le
    · rw [div_le_one (by norm_num)]
      exact (hts combined label).2
    · exact weightedTokenMax_le_one partialSim hps label tokens

theorem aliasFold_le_one (partialSim : String → String → ℚ)
    (hps : ∀ a b, 0 ≤ partialSim a b ∧ partialSim a b ≤ 100)
    (tokens : List String) (aliases : List String) (init : ℚ)
    (hinit : init ≤ 1) :
    aliases.foldl
      (fun best al => max best (scoreAlias partialSim (pyLower al) tokens))
      init ≤ 1 := by
  induction aliases generalizing init with
  | nil => exact hinit
  | cons al rest ih =>
    apply ih
    apply max_le hinit
    exact weightedTokenMax_le_one partialSim hps (pyLower al) tokens

theorem scoreAccounts_mem (tokenSetSim partialSim : String → String → ℚ)
    (hts : ∀ a b, 0 ≤ tokenSetSim a b ∧ tokenSetSim a b ≤ 100)
    (hps : ∀ a b, 0 ≤ partialSim a b ∧ partialSim a b ≤ 100)
    (tokens : List String) (combined : String) (minConfidence : ℚ) :
    ∀ (accounts : List RawAccountRow) (seen : List String)
      (c : AccountCandidate),
      c ∈ scoreAccounts tokenSetSim partialSim tokens combined minConfidence
        seen accounts →
      (minConfidence ≤ c.confidence ∧ c.confidence ≤ 1) ∧
      c.reason = candidateReason c.confidence c.account_name := by
  intro accounts
  induction accounts with
  | nil =>
    intro seen c hc
    simp [scoreAccounts] at hc
  | cons record rest ih =>
    intro seen c hc
    rw [scoreAccounts] at hc
    by_cases hskip : pyStrip (pickStr record.account_name record.name) = "" ∨
        pyStrip (pickStr record.account_code record.name) = "" ∨
        pyStrip (pickStr record.account_code record.name) ∈ seen
    · rw [if_pos hskip] at hc
      exact ih seen c hc
    · rw [if_neg hskip] at hc
      by_cases hconf : round4 ((aliasValues record.aliases record.aliasOne).foldl
          (fun best al => max best (scoreAlias partialSim (pyLower al) tokens))
          (scoreLabel tokenSetSim partialSim
            (pyLower (pyStrip (pickStr record.account_name record.name)))
            tokens combined)) < minConfidence
      · rw [if_pos hconf] at hc
        exact ih seen c hc
      · rw [if_neg hconf] at hc
        rcases List.mem_cons.mp hc with rfl | hmem
        · refine ⟨⟨le_of_not_lt hconf, ?_⟩, rfl⟩
          apply round4_le_one
          apply aliasFold_le_one partialSim hps
          exact scoreLabel_le_one tokenSetSim partialSim hts hps _ tokens combined
        · exact ih _ c hmem

theorem filter_orderedInsert_eq (q : ℚ) (a : AccountCandidate)
    (l : List AccountCandidate) (ha : a.confidence = q) :
    (List.orderedInsert confDesc a l).filter
        (fun c => decide (c.confidence = q)) =
      a :: l.filter (fun c => decide (c.confidence = q)) := by
  induction l with
  | nil => simp [List.orderedInsert, ha]
  | cons b rest ih =>
    rw [List.orderedInsert]
    by_cases hr : confDesc a b
    · rw [if_pos hr]
      simp [List.filter_cons, ha]
    · rw [if_neg hr]
      have hb : (decide (b.confidence = q)) = false := by
        simp only [decide_eq_false_iff_not]
        intro hbq
        exact hr (le_of_eq (by rw [hbq, ha]))
      simp only [List.filter_cons, hb, Bool.false_eq_true, if_false]
      exact ih

theorem filter_orderedInsert_ne (q : ℚ) (a : AccountCandidate)
    (l : List AccountCandidate) (ha : a.confidence ≠ q) :
    (List.orderedInsert confDesc a l).filter
        (fun c => decide (c.confidence = q)) =
      l.filter (fun c => decide (c.confidence = q)) := by
  induction l with
  | nil => simp [List.orderedInsert, ha]
  | cons b rest ih =>
    rw [List.orderedInsert]
    by_cases hr : confDesc a b
    · rw [if_pos hr]
      simp [List.filter_cons, ha]
    · rw [if_neg hr]
      simp only [List.filter_cons]
      rw [ih]

theorem filter_insertionSort (q : ℚ) (l : List AccountCandidate) :
    (List.insertionSort confDesc l).filter
        (fun c => decide (c.confidence = q)) =
      l.filter (fun c => decide (c.confidence = q)) := by
  induction l with
  | nil => rfl
  | cons x rest ih =>
    rw [List.insertionSort]
    by_cases hx : x.confidence = q
    · rw [filter_orderedInsert_eq q x _ hx, ih]
      simp [List.filter_cons, hx]
    · rw [filter_orderedInsert_ne q x _ hx, ih]
      simp [List.filter_cons, hx]

/-- C8 (amended): the ranking contract.  Under the rapidfuzz range contract
(both scorers land in [0, 100]) and for a positive `limit`, the result of
`rank_account_candidates` is sorted in descending confidence order, has
length at most `limit`, every candidate's confidence lies between
`min_confidence` and 1, each reason is "Matched '<name>'" at confidence
≥ 0.95 and "Similar to '<name>'" below, and for every confidence value the
result's candidates with that confidence form a prefix of the pre-sort
scoring list filtered to that confidence — equal confidences keep the
original account iteration order, first seen wins.  (For `limit = 0` —
falsy in Python — the code skips truncation entirely, so the length bound
fails; see the counterexample.) -/
theorem rank_account_candidates_contract
    (tokenSetSim partialSim : String → String → ℚ)
    (hts : ∀ a b, 0 ≤ tokenSetSim a b ∧ tokenSetSim a b ≤ 100)
    (hps : ∀ a b, 0 ≤ partialSim a b ∧ partialSim a b ≤ 100)
    (queryTerms : QueryTerms) (accounts : List RawAccountRow)
    (limit : Nat) (minConfidence : ℚ) (hlimit : 1 ≤ limit) :
    List.Sorted confDesc (rankAccountCandidates tokenSetSim partialSim
      queryTerms accounts limit minConfidence) ∧
    (rankAccountCandidates tokenSetSim partialSim queryTerms accounts limit
      minConfidence).length ≤ limit ∧
    (∀ c ∈ rankAccountCandidates tokenSetSim partialSim queryTerms accounts
        limit minConfidence,
      minConfidence ≤ c.confidence ∧ c.confidence ≤ 1) ∧
    (∀ c ∈ rankAccountCandidates tokenSetSim partialSim queryTerms accounts
        limit minConfidence,
      c.reason = candidateReason c.confidence c.account_name) ∧
    (∀ q : ℚ, ∃ t,
      (rankAccountCandidates tokenSetSim partialSim queryTerms accounts limit
          minConfidence).filter (fun c => decide (c.confidence = q)) ++ t =
        (scoreAccounts tokenSetSim partialSim (normalizeQueryTerms queryTerms)
          (String.intercalate " " (normalizeQueryTerms queryTerms))
          minConfidence [] accounts).filter
          (fun c => decide (c.confidence = q))) := by
  unfold rankAccountCandidates
  by_cases htok : normalizeQueryTerms queryTerms = []
  · rw [if_pos htok]
    refine ⟨List.sorted_nil, by simp, by simp, by simp, ?_⟩
    intro q
    exact ⟨_, rfl⟩
  · rw [if_neg htok]
    set scored := scoreAccounts tokenSetSim partialSim
      (normalizeQueryTerms queryTerms)
      (String.intercalate " " (normalizeQueryTerms queryTerms))
      minConfidence [] accounts with hscored
    set sorted := List.insertionSort confDesc scored with hsorted
    have hsort : List.Sorted confDesc sorted :=
      List.sorted_insertionSort confDesc scored
    have hmem : ∀ c ∈ sorted, c ∈ scored := fun c hc =>
      (List.perm_insertionSort confDesc scored).subset hc
    have hprops : ∀ c ∈ sorted,
        ((minConfidence ≤ c.confidence ∧ c.confidence ≤ 1) ∧
         c.reason = candidateReason c.confidence c.account_name) := by
      intro c hc
      exact scoreAccounts_mem tokenSetSim partialSim hts hps _ _ _
        accounts [] c (hmem c hc)
    have hfilter : ∀ q : ℚ,
        sorted.filter (fun c => decide (c.confidence = q)) =
          scored.filter (fun c => decide (c.confidence = q)) :=
      fun q => filter_insertionSort q scored
    by_cases hcut : limit ≠ 0 ∧ limit < sorted.length
    · rw [if_pos hcut]
      refine ⟨?_, ?_, ?_, ?_, ?_⟩
      · exact List.Pairwise.sublist (List.take_sublist limit sorted) hsort
      · simp [List.length_take]
      · intro c hc
        exact (hprops c (List.take_subset _ _ hc)).1
      · intro c hc
        exact (hprops c (List.take_subset _ _ hc)).2
      · intro q
        refine ⟨(sorted.drop limit).filter (fun c => decide (c.confidence = q)),
          ?_⟩
        rw [← List.filter_append, List.take_append_drop]
        exact hfilter q
    · rw [if_neg hcut]
      have hlen : sorted.length ≤ limit := by
        rcases Decidable.not_and_iff_or_not.mp hcut with h0 | hlt
        · omega
        · omega
      refine ⟨hsort, hlen, ?_, ?_, ?_⟩
      · intro c hc
        exact (hprops c hc).1
      · intro c hc
        exact (hprops c hc).2
      · intro q
        exact ⟨[], by rw [List.append_nil]; exact hfilter q⟩

theorem zeroSim_wtm (label : String) (tokens : List String) :
    weightedTokenMax zeroSim label tokens = 0 := by
  unfold weightedTokenMax
  have hgen : ∀ (l : List (Nat × String)),
      l.foldl (fun score p =>
        max score (tokenWeight p.1 * (zeroSim p.2 label / 100))) 0 = 0 := by
    intro l
    induction l with
    | nil => rfl
    | cons p rest ih =>
      have hstep : max (0 : ℚ) (tokenWeight p.1 * (zeroSim p.2 label / 100))
          = 0 := by
        simp [zeroSim]
      simp only [List.foldl_cons, hstep]
      exact ih
  exact hgen _

theorem zeroSim_scoreLabel (label : String) (tokens : List String)
    (combined : String) :
    scoreLabel zeroSim zeroSim label tokens combined = 0 := by
  unfold scoreLabel
  by_cases hl : label = ""
  · rw [if_pos hl]
  · rw [if_neg hl, zeroSim_wtm]
    simp [zeroSim]

theorem round4_zero : round4 0 = 0 := by
  unfold round4 roundHalfEven
  rw [zero_mul, Int.floor_zero]
  rw [if_pos (by norm_num)]
  norm_num

theorem eqSim_bounds : ∀ a b, 0 ≤ eqSim a b ∧ eqSim a b ≤ 100 := by
  intro a b
  unfold eqSim
  split <;> norm_num

/-- Counterexample to C8 as stated: with `limit = 0` (falsy in Python, so
`scored[:limit] if limit and len(scored) > limit else scored` skips the
truncation) the result has length 1, violating "length at most limit". -/
theorem rank_limit_zero_counterexample :
    (rankAccountCandidates zeroSim zeroSim (QueryTerms.ofList ["cash"])
        [c8Row] 0 0).length = 1 ∧
    ¬ ((rankAccountCandidates zeroSim zeroSim (QueryTerms.ofList ["cash"])
        [c8Row] 0 0).length ≤ 0) := by
  have hr : rankAccountCandidates zeroSim zeroSim (QueryTerms.ofList ["cash"])
      [c8Row] 0 0 =
      [{ account_name := "cash", account_code := "c1", confidence := 0,
         reason := candidateReason 0 "cash" }] := by
    unfold rankAccountCandidates
    rw [show normalizeQueryTerms (QueryTerms.ofList ["cash"]) = ["cash"]
      from rfl]
    rw [if_neg (by decide : ¬ (["cash"] = ([] : List String)))]
    simp only [scoreAccounts]
    rw [if_neg (by decide)]
    have hzero : round4 (List.foldl
        (fun best al => max best (scoreAlias zeroSim (pyLower al) ["cash"]))
        (scoreLabel zeroSim zeroSim
          (pyLower (pyStrip (pickStr c8Row.account_name c8Row.name)))
          ["cash"] (String.intercalate " " ["cash"]))
        (aliasValues c8Row.aliases c8Row.aliasOne)) = 0 := by
      rw [show aliasValues c8Row.aliases c8Row.aliasOne = ([] : List String)
        from rfl]
      rw [List.foldl_nil, zeroSim_scoreLabel, round4_zero]
    rw [hzero]
    rw [if_neg (by norm_num : ¬ ((0 : ℚ) < 0))]
    rw [if_neg (by decide)]
    rfl
  rw [hr]
  exact ⟨rfl, by decide⟩

/-- Witness for C8: the contract theorem applied at the equality scorer,
query ["cash"], a one-row chart of accounts, limit 5, min_confidence 1/2. -/
theorem rank_account_candidates_contract_witness :
    (∀ a b, 0 ≤ eqSim a b ∧ eqSim a b ≤ 100) ∧ 1 ≤ 5 ∧
    (List.Sorted confDesc (rankAccountCandidates eqSim eqSim
        (QueryTerms.ofList ["cash"]) [c8Row] 5 (1/2)) ∧
     (rankAccountCandidates eqSim eqSim (QueryTerms.ofList ["cash"]) [c8Row]
        5 (1/2)).length ≤ 5 ∧
     (∀ c ∈ rankAccountCandidates eqSim eqSim (QueryTerms.ofList ["cash"])
          [c8Row] 5 (1/2),
        (1/2 : ℚ) ≤ c.confidence ∧ c.confidence ≤ 1) ∧
     (∀ c ∈ rankAccountCandidates eqSim eqSim (QueryTerms.ofList ["cash"])
          [c8Row] 5 (1/2),
        c.reason = candidateReason c.confidence c.account_name) ∧
     (∀ q : ℚ, ∃ t,
        (rankAccountCandidates eqSim eqSim (QueryTerms.ofList ["cash"])
            [c8Row] 5 (1/2)).filter
            (fun c => decide (c.confidence = q)) ++ t =
          (scoreAccounts eqSim eqSim
            (normalizeQueryTerms (QueryTerms.ofList ["cash"]))
            (String.intercalate " "
              (normalizeQueryTerms (QueryTerms.ofList ["cash"])))
            (1/2) [] [c8Row]).filter
            (fun c => decide (c.confidence = q)))) :=
  ⟨eqSim_bounds, by decide,
    rank_account_candidates_contract eqSim eqSim eqSim_bounds eqSim_bounds
      (QueryTerms.ofList ["cash"]) [c8Row] 5 (1/2) (by decide)⟩
